import Mathlib

/-!
Verification of the persistence and aggregation core of the kakeibo
household-ledger application.

The TypeScript sources are embedded shallowly:

* `src/lib/calculations.ts` — pure aggregation engine (monthly summaries,
  category breakdowns, percentage formatting).  JS numbers are modelled as
  rationals (`ℚ`), since every arithmetic operation used there
  (+, -, /, abs, ×100) is exact on the inputs the claims quantify over.
* `src/lib/storage.ts` — dual-backend storage facade.  The Web backend
  (AsyncStorage) is modelled as a record of optional parsed collections
  (`none` = key absent).  The Native backend (SQLite) is modelled as an
  optional database state holding the three tables as lists of rows.
  Asynchrony carries no concurrency here (single-threaded cooperative
  scheduling per the design), so each operation is a pure state transformer;
  `generateId`/`getCurrentTimestamp` are modelled as explicit parameters.
* `src/lib/data-export.ts` / `data-export.native.ts` — import pipeline
  modelled from the point where the document has been parsed and
  shape-validated (the claims quantify over "parsed import documents").

Dates: `dayjs(t.date).year()` / `.month()+1` and `new Date(t.date).getTime()`
are two consistent readings of the same ISO-8601 string; we model the date as
a structured value with calendar fields and a derived monotone `time` key.

JS `Array.prototype.sort` is stable (ES2019), so it is modelled by a stable
insertion sort with the same comparator; JS `Map` iterates in insertion
order, so it is modelled by an association list that accumulates in place.
-/

/-- Transaction type, `"income" | "expense"` in `src/unnamed/part_011`. -/
inductive TxType
  | income
  | expense
deriving DecidableEq, Repr

/-- A calendar date as read from the ISO-8601 `date` string.  `year` and
`month` are what `dayjs(s).year()` and `dayjs(s).month() + 1` return;
`time` models `new Date(s).getTime()` as a monotone key (encoded
lexicographically, which agrees with chronological order and with SQLite
lexicographic `ORDER BY` on ISO-8601 text). -/
structure Date where
  year : Int
  month : Int
  day : Int
deriving DecidableEq, Repr

/-- Model of `new Date(s).getTime()`: a key that is monotone in the calendar
date (lexicographic encoding of year, month, day). -/
def Date.time (d : Date) : Int :=
  (d.year * 13 + d.month) * 32 + d.day

/-- `Transaction` from `src/unnamed/part_011` (the `@/types` module).
Optional TS fields become `Option`; `amount : number` becomes `ℚ`. -/
structure Transaction where
  id : String
  type : TxType
  amount : ℚ
  categoryId : Option String
  date : Date
  memo : Option String
  createdAt : String
  updatedAt : String
deriving DecidableEq, Repr

/-- `Category` from `src/unnamed/part_011`. -/
structure Category where
  id : String
  name : String
  icon : String
  color : String
  isDefault : Bool
  order : Int
  type : TxType
  customName : Option String
  createdAt : String
  updatedAt : String
deriving DecidableEq, Repr

/-- `MonthlySummary` from `src/unnamed/part_011`; the two optional numeric
fields become `Option ℚ`. -/
structure MonthlySummary where
  year : Int
  month : Int
  income : ℚ
  expense : ℚ
  balance : ℚ
  previousMonthBalance : Option ℚ
  changePercentage : Option ℚ
deriving DecidableEq, Repr

/-- `YearlySummary` from `src/unnamed/part_011`. -/
structure YearlySummary where
  year : Int
  income : ℚ
  expense : ℚ
  balance : ℚ
  previousYearBalance : Option ℚ
  changePercentage : Option ℚ
deriving DecidableEq, Repr

/-- `CategoryExpense` from `src/unnamed/part_011`. -/
structure CategoryExpense where
  categoryId : String
  categoryName : String
  categoryIcon : String
  categoryColor : String
  amount : ℚ
  percentage : ℚ
deriving DecidableEq, Repr

/-- `filterTransactionsByMonth` (`src/lib/calculations.ts:7`):
`d.year() === year && d.month() + 1 === month`. -/
def filterTransactionsByMonth (transactions : List Transaction) (year month : Int) :
    List Transaction :=
  transactions.filter fun t => decide (t.date.year = year) && decide (t.date.month = month)

/-- `filterTransactionsByYear` (`src/lib/calculations.ts:17`). -/
def filterTransactionsByYear (transactions : List Transaction) (year : Int) :
    List Transaction :=
  transactions.filter fun t => decide (t.date.year = year)

/-- `calculateMonthlySummary` (`src/lib/calculations.ts:27`).  The optional
`previousMonthTransactions` argument is passed explicitly as an `Option`. -/
def calculateMonthlySummary (transactions : List Transaction) (year month : Int)
    (previousMonthTransactions : Option (List Transaction)) : MonthlySummary :=
  let monthTransactions := filterTransactionsByMonth transactions year month
  let income := (monthTransactions.filter fun t => decide (t.type = TxType.income)).foldl
    (fun sum t => sum + t.amount) 0
  let expense := (monthTransactions.filter fun t => decide (t.type = TxType.expense)).foldl
    (fun sum t => sum + t.amount) 0
  let balance := income - expense
  match previousMonthTransactions with
  | none =>
      { year := year, month := month, income := income, expense := expense,
        balance := balance, previousMonthBalance := none, changePercentage := none }
  | some prev =>
      let prevIncome := (prev.filter fun t => decide (t.type = TxType.income)).foldl
        (fun sum t => sum + t.amount) 0
      let prevExpense := (prev.filter fun t => decide (t.type = TxType.expense)).foldl
        (fun sum t => sum + t.amount) 0
      let previousMonthBalance := prevIncome - prevExpense
      if previousMonthBalance ≠ 0 then
        { year := year, month := month, income := income, expense := expense,
          balance := balance, previousMonthBalance := some previousMonthBalance,
          changePercentage :=
            some ((balance - previousMonthBalance) / |previousMonthBalance| * 100) }
      else
        { year := year, month := month, income := income, expense := expense,
          balance := balance, previousMonthBalance := some previousMonthBalance,
          changePercentage := none }

/-- `calculateYearlySummary` (`src/lib/calculations.ts:78`). -/
def calculateYearlySummary (transactions : List Transaction) (year : Int)
    (previousYearTransactions : Option (List Transaction)) : YearlySummary :=
  let yearTransactions := filterTransactionsByYear transactions year
  let income := (yearTransactions.filter fun t => decide (t.type = TxType.income)).foldl
    (fun sum t => sum + t.amount) 0
  let expense := (yearTransactions.filter fun t => decide (t.type = TxType.expense)).foldl
    (fun sum t => sum + t.amount) 0
  let balance := income - expense
  match previousYearTransactions with
  | none =>
      { year := year, income := income, expense := expense, balance := balance,
        previousYearBalance := none, changePercentage := none }
  | some prev =>
      let prevIncome := (prev.filter fun t => decide (t.type = TxType.income)).foldl
        (fun sum t => sum + t.amount) 0
      let prevExpense := (prev.filter fun t => decide (t.type = TxType.expense)).foldl
        (fun sum t => sum + t.amount) 0
      let previousYearBalance := prevIncome - prevExpense
      if previousYearBalance ≠ 0 then
        { year := year, income := income, expense := expense, balance := balance,
          previousYearBalance := some previousYearBalance,
          changePercentage :=
            some ((balance - previousYearBalance) / |previousYearBalance| * 100) }
      else
        { year := year, income := income, expense := expense, balance := balance,
          previousYearBalance := some previousYearBalance, changePercentage := none }

/-- Specification helper: the transactions of a given type (the
`filter((t) => t.type === ty)` step, named for use in claim statements). -/
def transactionsOfType (l : List Transaction) (ty : TxType) : List Transaction :=
  l.filter fun t => decide (t.type = ty)

/-- Specification helper: sum of the `amount` fields of a list. -/
def sumAmounts (l : List Transaction) : ℚ :=
  (l.map (fun t => t.amount)).sum

/-- JS-truthiness of the optional `categoryId` string: `if (t.categoryId)`
is false for an absent field and for the empty string. -/
def truthyCategoryId (t : Transaction) : Option String :=
  match t.categoryId with
  | none => none
  | some cid => if cid = "" then none else some cid

/-- `categoryMap.set(categoryId, (categoryMap.get(categoryId) || 0) + amount)`
on a JS `Map` modelled as an insertion-ordered association list: an existing
key keeps its position, a new key is appended at the end. -/
def mapAdd : List (String × ℚ) → String → ℚ → List (String × ℚ)
  | [], key, amt => [(key, amt)]
  | (k, v) :: rest, key, amt =>
      if k = key then (k, v + amt) :: rest else (k, v) :: mapAdd rest key amt

/-- The `forEach` loop that accumulates each truthy `categoryId`'s amounts
into the `Map` (`src/lib/calculations.ts:140` and `:186`). -/
def buildCategoryMap (ts : List Transaction) : List (String × ℚ) :=
  ts.foldl (fun m t =>
    match truthyCategoryId t with
    | none => m
    | some cid => mapAdd m cid t.amount) []

/-- One `result.push(...)` candidate of the `categoryMap.forEach` loop:
resolve the category by id (`categories.find`) and build the entry, or skip. -/
def entryOfPair (categories : List Category) (total : ℚ) (p : String × ℚ) :
    Option CategoryExpense :=
  (categories.find? fun c => c.id == p.1).map fun category =>
    { categoryId := p.1, categoryName := category.name, categoryIcon := category.icon,
      categoryColor := category.color, amount := p.2, percentage := p.2 / total * 100 }

/-- The `categoryMap.forEach` loop pushing resolved entries in map order. -/
def categoryEntries (m : List (String × ℚ)) (categories : List Category) (total : ℚ) :
    List CategoryExpense :=
  m.filterMap (entryOfPair categories total)

/-- Stable sort descending by `amount`, modelling JS stable
`result.sort((a, b) => b.amount - a.amount)` (ES2019 sort is stable, hence
equal to insertion sort for this total preorder). -/
def sortAmountDesc (l : List CategoryExpense) : List CategoryExpense :=
  l.insertionSort fun a b => b.amount ≤ a.amount

/-- `calculateCategoryExpenses` (`src/lib/calculations.ts:127`). -/
def calculateCategoryExpenses (transactions : List Transaction)
    (categories : List Category) : List CategoryExpense :=
  let expenses := transactions.filter fun t => decide (t.type = TxType.expense)
  let totalExpense := expenses.foldl (fun sum t => sum + t.amount) 0
  if totalExpense = 0 then []
  else sortAmountDesc (categoryEntries (buildCategoryMap expenses) categories totalExpense)

/-- `calculateCategoryData` (`src/lib/calculations.ts:172`). -/
def calculateCategoryData (transactions : List Transaction)
    (categories : List Category) (type : TxType) : List CategoryExpense :=
  let filtered := transactions.filter fun t => decide (t.type = type)
  let total := filtered.foldl (fun sum t => sum + t.amount) 0
  if total = 0 then []
  else sortAmountDesc (categoryEntries (buildCategoryMap filtered) categories total)

/-- Model of JS `x.toFixed(1)` on an exact rational: round to the nearest
tenth, ties toward positive infinity (the ECMAScript `toFixed` rule "pick the
larger n"), and render with the sign taken from the input (so small negative
values render as `-0.0`, as in JS). -/
def toFixed1 (x : ℚ) : String :=
  let n : Int := Int.floor (x * 10 + 1 / 2)
  (if x < 0 then "-" else "") ++ toString (n.natAbs / 10) ++ "." ++ toString (n.natAbs % 10)

/-- `formatPercentage` (`src/lib/calculations.ts:261`):
the sign is `"+"` when `percentage > 0` and empty otherwise. -/
def formatPercentage (percentage : ℚ) : String :=
  (if percentage > 0 then "+" else "") ++ toFixed1 percentage ++ "%"

/-- The keys of the association-list model of the JS `Map`, in insertion
order. -/
def catMapKeys (m : List (String × ℚ)) : List String :=
  m.map fun p => p.1

/-- The amount stored under a key of the `Map` model (`0` when absent,
matching `categoryMap.get(cid) || 0`). -/
def catMapAmount : List (String × ℚ) → String → ℚ
  | [], _ => 0
  | p :: rest, k => if p.1 = k then p.2 else catMapAmount rest k

/-- Total amount the accumulation loop attributes to a category id:
the sum over transactions whose truthy `categoryId` equals it. -/
def accumulatedAmount (ts : List Transaction) (cid : String) : ℚ :=
  sumAmounts (ts.filter fun t => decide (truthyCategoryId t = some cid))

/-- A transaction whose `categoryId` is the empty string (possible in the
data model: ids are arbitrary strings, and import performs no field-level
validation). -/
def emptyIdTx : Transaction :=
  ⟨"t1", TxType.expense, 5, some "", ⟨2026, 1, 1⟩, none, "c", "u"⟩

/-- A category whose `id` is the empty string. -/
def emptyIdCat : Category :=
  ⟨"", "X", "more-horiz", "#C7CEEA", false, 0, TxType.expense, none, "c", "u"⟩

/-- Concrete ledger from §8 of the spec: January 2026 transactions. -/
def sampleJanuary : List Transaction :=
  [⟨"t1", TxType.income, 300000, none, ⟨2026, 1, 15⟩, none, "c", "u"⟩,
   ⟨"t2", TxType.expense, 50000, some "cat_1", ⟨2026, 1, 20⟩, none, "c", "u"⟩,
   ⟨"t3", TxType.expense, 30000, some "cat_2", ⟨2026, 1, 25⟩, none, "c", "u"⟩]

/-- Concrete ledger from §8 of the spec: December 2025 transactions. -/
def sampleDecember : List Transaction :=
  [⟨"t4", TxType.income, 250000, none, ⟨2025, 12, 15⟩, none, "c", "u"⟩]

/-- Concrete categories from §8 of the spec. -/
def sampleCats : List Category :=
  [⟨"cat_1", "食費", "restaurant", "#FF6B6B", true, 0, TxType.expense, none, "c", "u"⟩,
   ⟨"cat_2", "交通費", "directions-car", "#4ECDC4", true, 1, TxType.expense, none, "c", "u"⟩]

/-- Web backend state (`src/lib/storage.ts`, AsyncStorage): the parsed
contents of the namespaced keys; `none` models an absent key. -/
structure WebStore where
  transactions : Option (List Transaction)
  categories : Option (List Category)
  initialized : Option String
  themeMode : Option String
deriving DecidableEq, Repr

/-- The three SQLite tables of the native backend, as lists of rows. -/
structure DbState where
  categories : List Category
  transactions : List Transaction
  settings : List (String × String)
deriving DecidableEq, Repr

/-- Native backend state: the SQLite database (`none` models `getDatabase()`
returning null) plus the legacy AsyncStorage keys read by the migration. -/
structure NativeStore where
  db : Option DbState
  kvTransactions : Option (List Transaction)
  kvCategories : Option (List Category)
  kvThemeMode : Option String
  kvMigrated : Option String
deriving DecidableEq, Repr

/-- Stable sort by date descending, modelling both the Web comparator
`(a, b) => new Date(b.date).getTime() - new Date(a.date).getTime()` and the
native `ORDER BY date DESC` over ISO-8601 text. -/
def sortTransactionsByDateDesc (l : List Transaction) : List Transaction :=
  l.insertionSort fun a b => b.date.time ≤ a.date.time

/-- Stable sort by display order ascending, modelling the Web comparator
`(a, b) => a.order - b.order` and the native `ORDER BY display_order ASC`. -/
def sortCategoriesByOrderAsc (l : List Category) : List Category :=
  l.insertionSort fun a b => a.order ≤ b.order

/-- `getTransactionsWeb` (`src/lib/storage.ts:176`): parse (absent key gives
`[]`) and sort by date descending. -/
def getTransactionsWeb (s : WebStore) : List Transaction :=
  match s.transactions with
  | none => []
  | some transactions => sortTransactionsByDateDesc transactions

/-- `getCategoriesWeb` (`src/lib/storage.ts:245`). -/
def getCategoriesWeb (s : WebStore) : List Category :=
  match s.categories with
  | none => []
  | some categories => sortCategoriesByOrderAsc categories

/-- `getTransactionsNative` (`src/lib/storage.ts:414`):
`SELECT * FROM transactions ORDER BY date DESC`. -/
def getTransactionsNative (s : NativeStore) : List Transaction :=
  match s.db with
  | none => []
  | some db => sortTransactionsByDateDesc db.transactions

/-- `getCategoriesNative` (`src/lib/storage.ts:518`):
`SELECT * FROM categories ORDER BY display_order ASC`. -/
def getCategoriesNative (s : NativeStore) : List Category :=
  match s.db with
  | none => []
  | some db => sortCategoriesByOrderAsc db.categories

/-- One default-category seed (`Omit<Category, "id" | "createdAt" | "updatedAt">`). -/
structure CategorySeed where
  name : String
  icon : String
  color : String
  isDefault : Bool
  order : Int
  type : TxType
deriving DecidableEq, Repr

/-- `DEFAULT_CATEGORIES` (`src/lib/storage.ts:19`): 7 expense + 4 income. -/
def DEFAULT_CATEGORIES : List CategorySeed :=
  [⟨"食費", "restaurant", "#FF6B6B", true, 0, TxType.expense⟩,
   ⟨"交通費", "directions-car", "#4ECDC4", true, 1, TxType.expense⟩,
   ⟨"娯楽", "sports-esports", "#FFD93D", true, 2, TxType.expense⟩,
   ⟨"光熱費", "lightbulb", "#95E1D3", true, 3, TxType.expense⟩,
   ⟨"通信費", "phone-iphone", "#A8E6CF", true, 4, TxType.expense⟩,
   ⟨"医療費", "local-hospital", "#FF8B94", true, 5, TxType.expense⟩,
   ⟨"その他", "more-horiz", "#C7CEEA", true, 6, TxType.expense⟩,
   ⟨"給与", "work", "#4CAF50", true, 7, TxType.income⟩,
   ⟨"賞与", "card-giftcard", "#8BC34A", true, 8, TxType.income⟩,
   ⟨"臨時収入", "trending-up", "#CDDC39", true, 9, TxType.income⟩,
   ⟨"その他", "more-horiz", "#FFC107", true, 10, TxType.income⟩]

/-- Completing a seed with a generated id and the current timestamp
(`customName` is absent in every seed, hence `none`). -/
def seedToCategory (id timestamp : String) (c : CategorySeed) : Category :=
  ⟨id, c.name, c.icon, c.color, c.isDefault, c.order, c.type, none, timestamp, timestamp⟩

/-- The seeded default categories: one fresh `generateId("cat")` per seed
(modelled by an id supply `gen`) and one shared timestamp. -/
def seededCategories (gen : Nat → String) (timestamp : String) : List Category :=
  DEFAULT_CATEGORIES.enum.map fun p => seedToCategory (gen p.1) timestamp p.2

/-- `initializeStorageWeb` (`src/lib/storage.ts:151`): no-op when the
initialized flag is `"true"`, otherwise seed defaults, empty transactions,
and set the flag. -/
def initializeStorageWeb (gen : Nat → String) (now : String) (s : WebStore) : WebStore :=
  if s.initialized = some "true" then s
  else
    { s with categories := some (seededCategories gen now),
             transactions := some ([] : List Transaction),
             initialized := some "true" }

/-- `INSERT OR REPLACE` keyed by a string key: replace the conflicting row in
place, else append. -/
def upsertBy (key : α → String) (table : List α) (row : α) : List α :=
  if table.any fun r => key r == key row then
    table.map fun r => if key r == key row then row else r
  else table ++ [row]

/-- The body of `migrateFromAsyncStorage` (`src/lib/storage.ts:72`) after the
migrated-flag check: upsert legacy categories, transactions and theme into
the database, then set the flag.  (`if (categoriesJson)` is truthy for every
serialized array, so presence is modelled by `Option`; the theme string is
additionally checked for truthiness.) -/
def migrateFromAsyncStorageBody (s : NativeStore) : NativeStore :=
  match s.db with
  | none => s
  | some db =>
      let db1 := match s.kvCategories with
        | none => db
        | some cats =>
            { db with categories := cats.foldl (upsertBy fun c => c.id) db.categories }
      let db2 := match s.kvTransactions with
        | none => db1
        | some txs =>
            { db1 with transactions := txs.foldl (upsertBy fun t => t.id) db1.transactions }
      let db3 := match s.kvThemeMode with
        | none => db2
        | some tm =>
            if tm = "" then db2
            else { db2 with settings := upsertBy (fun p => p.1) db2.settings ("theme_mode", tm) }
      { s with db := some db3, kvMigrated := some "true" }

/-- `migrateFromAsyncStorage` (`src/lib/storage.ts:72`): immediate no-op when
the persisted migrated flag is `"true"`. -/
def migrateFromAsyncStorage (s : NativeStore) : NativeStore :=
  if s.kvMigrated = some "true" then s
  else migrateFromAsyncStorageBody s

/-- `initializeStorageNative` (`src/lib/storage.ts:372`): run the migration,
then seed the default categories only when the categories table is empty. -/
def initializeStorageNative (gen : Nat → String) (now : String) (s : NativeStore) :
    NativeStore :=
  match s.db with
  | none => s
  | some _ =>
      let s1 := migrateFromAsyncStorage s
      match s1.db with
      | none => s1
      | some db =>
          if db.categories.length = 0 then
            let newCats := db.categories ++ seededCategories gen now
            { s1 with db := some { db with categories := newCats } }
          else s1

/-- A partial update object `Partial<Omit<Transaction, "id" | "createdAt" |
"updatedAt">>`: `none` is an absent field; for the two nullable fields the
inner `Option` is the stored value. -/
structure TransactionUpdates where
  type : Option TxType
  amount : Option ℚ
  categoryId : Option (Option String)
  date : Option Date
  memo : Option (Option String)
deriving DecidableEq, Repr

/-- Merging a partial update into a transaction and stamping `updatedAt`.
This is both the Web spread `{...transactions[index], ...updates, updatedAt}`
and the native per-field `updates.x ?? current.x` /
`updates.x !== undefined ? updates.x : current.x` merge, which coincide in
the `Option` model of partial updates. -/
def applyUpdates (t : Transaction) (u : TransactionUpdates) (now : String) : Transaction :=
  { id := t.id, type := u.type.getD t.type, amount := u.amount.getD t.amount,
    categoryId := u.categoryId.getD t.categoryId, date := u.date.getD t.date,
    memo := u.memo.getD t.memo, createdAt := t.createdAt, updatedAt := now }

/-- The update object `{amount: X}` of the claim. -/
def amountOnlyUpdate (x : ℚ) : TransactionUpdates :=
  ⟨none, some x, none, none, none⟩

/-- `findIndex` followed by in-place assignment: returns the updated element
(if any) and the updated list. -/
def updateFirst (p : α → Bool) (f : α → α) : List α → Option α × List α
  | [] => (none, [])
  | x :: xs =>
      if p x then (some (f x), f x :: xs)
      else
        let r := updateFirst p f xs
        (r.1, x :: r.2)

/-- `updateTransactionWeb` (`src/lib/storage.ts:209`): read the (sorted)
collection, locate by id (null when absent, no write), merge, write back. -/
def updateTransactionWeb (id : String) (updates : TransactionUpdates) (now : String)
    (s : WebStore) : Option Transaction × WebStore :=
  let transactions := getTransactionsWeb s
  let r := updateFirst (fun t => t.id == id) (fun t => applyUpdates t updates now) transactions
  match r.1 with
  | none => (none, s)
  | some updated => (some updated, { s with transactions := some r.2 })

/-- `updateTransactionNative` (`src/lib/storage.ts:459`): read the current
row by id (null when absent), merge, `UPDATE ... WHERE id = ?`. -/
def updateTransactionNative (id : String) (updates : TransactionUpdates) (now : String)
    (s : NativeStore) : Option Transaction × NativeStore :=
  match s.db with
  | none => (none, s)
  | some db =>
      match db.transactions.find? (fun t => t.id == id) with
      | none => (none, s)
      | some current =>
          let updated := applyUpdates current updates now
          let newRows := db.transactions.map fun t => if t.id == id then updated else t
          (some updated, { s with db := some { db with transactions := newRows } })

/-- `deleteTransactionWeb` (`src/lib/storage.ts:232`): filter out the id;
`false` (and no write) when the length is unchanged. -/
def deleteTransactionWeb (id : String) (s : WebStore) : Bool × WebStore :=
  let transactions := getTransactionsWeb s
  let filtered := transactions.filter fun t => !(t.id == id)
  if filtered.length = transactions.length then (false, s)
  else (true, { s with transactions := some filtered })

/-- `deleteTransactionNative` (`src/lib/storage.ts:511`):
`DELETE FROM transactions WHERE id = ?`, returning `changes > 0`. -/
def deleteTransactionNative (id : String) (s : NativeStore) : Bool × NativeStore :=
  match s.db with
  | none => (false, s)
  | some db =>
      let newRows := db.transactions.filter fun t => !(t.id == id)
      (decide (db.transactions.length - newRows.length > 0),
       { s with db := some { db with transactions := newRows } })

/-- The payload of an export document (`ExportData.data`). -/
structure ExportPayload where
  transactions : List Transaction
  categories : List Category
  themeMode : Option String
deriving DecidableEq, Repr

/-- A parsed, shape-validated export document (`ExportData`). -/
structure ExportDoc where
  version : Int
  exportedAt : String
  data : ExportPayload
deriving DecidableEq, Repr

/-- `EXPORT_VERSION` (`src/lib/data-export.ts:31`). -/
def EXPORT_VERSION : Int := 1

/-- The `{success, error?, stats?}` result of `importData`. -/
structure ImportResult where
  success : Bool
  error : Option String
  stats : Option (Nat × Nat)
deriving DecidableEq, Repr

/-- `importData` (`src/lib/data-export.ts:159`-`183`), from the point where
the document is parsed and shape-validated: reject versions above
`EXPORT_VERSION` without touching the store, otherwise overwrite the
collections, apply a truthy theme, and set the initialized flag. -/
def importDataWeb (doc : ExportDoc) (s : WebStore) : ImportResult × WebStore :=
  if doc.version > EXPORT_VERSION then
    ({ success := false, error := some "newer app version", stats := none }, s)
  else
    let s1 := { s with transactions := some doc.data.transactions,
                       categories := some doc.data.categories }
    let s2 := match doc.data.themeMode with
      | none => s1
      | some tm => if tm = "" then s1 else { s1 with themeMode := some tm }
    let s3 := { s2 with initialized := some "true" }
    ({ success := true, error := none,
       stats := some (doc.data.transactions.length, doc.data.categories.length) }, s3)

/-- JS `value || timestamp` on a string: fall back when empty (falsy). -/
def stringOrFallback (v fallback : String) : String :=
  if v = "" then fallback else v

/-- Re-stamping an imported category (`cat.createdAt || timestamp`). -/
def importCategoryRow (now : String) (c : Category) : Category :=
  { c with createdAt := stringOrFallback c.createdAt now,
           updatedAt := stringOrFallback c.updatedAt now }

/-- Re-stamping an imported transaction (`txn.createdAt || timestamp`). -/
def importTransactionRow (now : String) (t : Transaction) : Transaction :=
  { t with createdAt := stringOrFallback t.createdAt now,
           updatedAt := stringOrFallback t.updatedAt now }

/-- `importData` (`src/lib/data-export.native.ts:159`-`240`), from the point
where the document is parsed and shape-validated: version gate, then clear
the transactions and categories tables, insert every imported row
(timestamps falling back to now), and save a truthy theme. -/
def importDataNative (doc : ExportDoc) (now : String) (s : NativeStore) :
    ImportResult × NativeStore :=
  if doc.version > EXPORT_VERSION then
    ({ success := false, error := some "newer app version", stats := none }, s)
  else
    match s.db with
    | none => ({ success := false, error := some "database unavailable", stats := none }, s)
    | some db =>
        let db1 := { db with transactions := [], categories := [] }
        let db2 := { db1 with categories := doc.data.categories.map (importCategoryRow now) }
        let db3 := { db2 with transactions :=
          doc.data.transactions.map (importTransactionRow now) }
        let db4 := match doc.data.themeMode with
          | none => db3
          | some tm =>
              if tm = "" then db3
              else { db3 with settings := upsertBy (fun p => p.1) db3.settings ("theme_mode", tm) }
        ({ success := true, error := none,
           stats := some (doc.data.transactions.length, doc.data.categories.length) },
         { s with db := some db4 })

/-- The categories table of a native store (empty when no database). -/
def dbCategoriesOf (s : NativeStore) : List Category :=
  match s.db with
  | none => []
  | some db => db.categories

/-- The transactions table of a native store. -/
def dbTransactionsOf (s : NativeStore) : List Transaction :=
  match s.db with
  | none => []
  | some db => db.transactions

/-- The settings table of a native store. -/
def dbSettingsOf (s : NativeStore) : List (String × String) :=
  match s.db with
  | none => []
  | some db => db.settings

/-- A concrete Web store holding the §8 sample data. -/
def sampleWebStore : WebStore :=
  ⟨some sampleJanuary, some sampleCats, some "true", none⟩

/-- A concrete native store holding the §8 sample data. -/
def sampleNativeStore : NativeStore :=
  ⟨some ⟨sampleCats, sampleJanuary, []⟩, none, none, none, some "true"⟩

/-- A concrete export document with `version = 2` (newer than supported). -/
def sampleNewerDoc : ExportDoc :=
  ⟨2, "2026-01-01T00:00:00.000Z", ⟨sampleJanuary, sampleCats, some "dark"⟩⟩

/-- A concrete export document with the supported `version = 1`. -/
def sampleCurrentDoc : ExportDoc :=
  ⟨1, "2026-01-01T00:00:00.000Z", ⟨sampleJanuary, sampleCats, some "dark"⟩⟩

-- =====================================================================
-- Lemmas and claim theorems
-- =====================================================================

/-- The running-sum `reduce((sum, t) => sum + t.amount, 0)` computes the sum
of the amounts. -/
theorem foldl_amount_eq (l : List Transaction) (init : ℚ) :
    l.foldl (fun sum t => sum + t.amount) init = init + sumAmounts l := by
  induction l generalizing init with
  | nil => simp [sumAmounts]
  | cons t ts ih =>
      simp only [List.foldl_cons, ih, sumAmounts, List.map_cons, List.sum_cons]
      ring

/-- C1: `calculateMonthlySummary` computes income, expense and balance of the
selected month, the previous-period balance when a previous list is supplied,
and the change percentage `(balance − prev) / |prev| × 100`, which is
undefined exactly when no previous list was supplied or the previous balance
is zero. -/
theorem calculateMonthlySummary_spec (txs : List Transaction) (year month : Int)
    (prev : Option (List Transaction)) :
    (calculateMonthlySummary txs year month prev).income =
      sumAmounts (transactionsOfType (filterTransactionsByMonth txs year month) TxType.income) ∧
    (calculateMonthlySummary txs year month prev).expense =
      sumAmounts (transactionsOfType (filterTransactionsByMonth txs year month) TxType.expense) ∧
    (calculateMonthlySummary txs year month prev).balance =
      (calculateMonthlySummary txs year month prev).income -
        (calculateMonthlySummary txs year month prev).expense ∧
    (∀ pl, prev = some pl →
      (calculateMonthlySummary txs year month prev).previousMonthBalance =
        some (sumAmounts (transactionsOfType pl TxType.income) -
          sumAmounts (transactionsOfType pl TxType.expense))) ∧
    (prev = none →
      (calculateMonthlySummary txs year month prev).previousMonthBalance = none) ∧
    (∀ pl pb, prev = some pl →
      (calculateMonthlySummary txs year month prev).previousMonthBalance = some pb →
      pb ≠ 0 →
      (calculateMonthlySummary txs year month prev).changePercentage =
        some (((calculateMonthlySummary txs year month prev).balance - pb) / |pb| * 100)) ∧
    ((calculateMonthlySummary txs year month prev).changePercentage = none ↔
      prev = none ∨ ∃ pl, prev = some pl ∧
        sumAmounts (transactionsOfType pl TxType.income) -
          sumAmounts (transactionsOfType pl TxType.expense) = 0) := by
  cases prev with
  | none =>
      simp [calculateMonthlySummary, transactionsOfType, foldl_amount_eq]
  | some pl =>
      by_cases h : sumAmounts (transactionsOfType pl TxType.income) -
          sumAmounts (transactionsOfType pl TxType.expense) = 0
      · simp only [transactionsOfType] at h
        simp [calculateMonthlySummary, transactionsOfType, foldl_amount_eq, h]
      · simp only [transactionsOfType] at h
        simp [calculateMonthlySummary, transactionsOfType, foldl_amount_eq, h]

/-- C1 witness: the theorem instantiated on the concrete ledger of §8 of the
spec (January 2026 with December 2025 as previous period). -/
theorem calculateMonthlySummary_spec_witness :
    ((some sampleDecember : Option (List Transaction)) = some sampleDecember ∧
      sumAmounts (transactionsOfType sampleDecember TxType.income) -
        sumAmounts (transactionsOfType sampleDecember TxType.expense) ≠ 0) ∧
    (calculateMonthlySummary sampleJanuary 2026 1 (some sampleDecember)).income = 300000 ∧
    (calculateMonthlySummary sampleJanuary 2026 1 (some sampleDecember)).previousMonthBalance =
      some 250000 := by
  have h := calculateMonthlySummary_spec sampleJanuary 2026 1 (some sampleDecember)
  refine ⟨⟨rfl, ?_⟩, ?_, ?_⟩
  · norm_num +decide [sumAmounts, transactionsOfType, sampleDecember, List.filter]
  · rw [h.1]
    norm_num +decide [sumAmounts, transactionsOfType, filterTransactionsByMonth, sampleJanuary,
      List.filter]
  · rw [h.2.2.2.1 sampleDecember rfl]
    norm_num +decide [sumAmounts, transactionsOfType, sampleDecember, List.filter]

/-- Unfolding `sumAmounts` over a cons cell. -/
theorem sumAmounts_cons (t : Transaction) (l : List Transaction) :
    sumAmounts (t :: l) = t.amount + sumAmounts l := by
  simp [sumAmounts]


/-- A truthy category id is the stored id, and is non-empty. -/
theorem truthyCategoryId_eq_some (t : Transaction) (cid : String) :
    truthyCategoryId t = some cid ↔ t.categoryId = some cid ∧ cid ≠ "" := by
  cases h : t.categoryId with
  | none => simp [truthyCategoryId, h]
  | some c =>
      simp only [truthyCategoryId, h]
      by_cases hc : c = ""
      · subst hc
        rw [if_pos rfl]
        constructor
        · intro hfalse
          exact Option.noConfusion hfalse
        · rintro ⟨hcid, hne⟩
          injection hcid with h2
          exact absurd h2.symm hne
      · rw [if_neg hc]
        constructor
        · intro hcid
          injection hcid with h2
          subst h2
          exact ⟨rfl, hc⟩
        · rintro ⟨hcid, _⟩
          exact hcid

/-- Key membership after a `Map.set`-style update. -/
theorem mem_catMapKeys_mapAdd (m : List (String × ℚ)) (k : String) (v : ℚ) (a : String) :
    a ∈ catMapKeys (mapAdd m k v) ↔ a ∈ catMapKeys m ∨ a = k := by
  induction m with
  | nil => simp [mapAdd, catMapKeys]
  | cons p rest ih =>
      obtain ⟨q, w⟩ := p
      by_cases h : q = k
      · subst h
        rw [show mapAdd ((q, w) :: rest) q v = (q, w + v) :: rest from by
          simp [mapAdd]]
        simp [catMapKeys]
        tauto
      · rw [show mapAdd ((q, w) :: rest) k v = (q, w) :: mapAdd rest k v from by
          simp [mapAdd, h]]
        simp only [catMapKeys, List.map_cons, List.mem_cons] at ih ⊢
        rw [ih]
        tauto

/-- `Map.set` keeps the key set free of duplicates. -/
theorem nodup_catMapKeys_mapAdd (m : List (String × ℚ)) (k : String) (v : ℚ)
    (h : (catMapKeys m).Nodup) : (catMapKeys (mapAdd m k v)).Nodup := by
  induction m with
  | nil => simp [mapAdd, catMapKeys]
  | cons p rest ih =>
      obtain ⟨q, w⟩ := p
      simp only [catMapKeys, List.map_cons, List.nodup_cons] at h
      by_cases hq : q = k
      · subst hq
        rw [show mapAdd ((q, w) :: rest) q v = (q, w + v) :: rest from by
          simp [mapAdd]]
        simpa [catMapKeys, List.nodup_cons] using h
      · rw [show mapAdd ((q, w) :: rest) k v = (q, w) :: mapAdd rest k v from by
          simp [mapAdd, hq]]
        simp only [catMapKeys, List.map_cons, List.nodup_cons]
        refine ⟨fun hmem => ?_, ih h.2⟩
        have hmem2 : q ∈ catMapKeys (mapAdd rest k v) := hmem
        rw [mem_catMapKeys_mapAdd] at hmem2
        rcases hmem2 with hmem2 | hmem2
        · exact h.1 hmem2
        · exact hq hmem2

/-- The amount stored under the updated key. -/
theorem catMapAmount_mapAdd_self (m : List (String × ℚ)) (k : String) (v : ℚ) :
    catMapAmount (mapAdd m k v) k = catMapAmount m k + v := by
  induction m with
  | nil => simp [mapAdd, catMapAmount]
  | cons p rest ih =>
      obtain ⟨q, w⟩ := p
      by_cases h : q = k
      · subst h
        rw [show mapAdd ((q, w) :: rest) q v = (q, w + v) :: rest from by
          simp [mapAdd]]
        simp [catMapAmount]
      · rw [show mapAdd ((q, w) :: rest) k v = (q, w) :: mapAdd rest k v from by
          simp [mapAdd, h]]
        simp [catMapAmount, h, ih]

/-- The amount stored under any other key is untouched. -/
theorem catMapAmount_mapAdd_ne (m : List (String × ℚ)) (k : String) (v : ℚ)
    (a : String) (ha : a ≠ k) : catMapAmount (mapAdd m k v) a = catMapAmount m a := by
  induction m with
  | nil => simp [mapAdd, catMapAmount, Ne.symm ha]
  | cons p rest ih =>
      obtain ⟨q, w⟩ := p
      by_cases h : q = k
      · subst h
        rw [show mapAdd ((q, w) :: rest) q v = (q, w + v) :: rest from by
          simp [mapAdd]]
        simp [catMapAmount, Ne.symm ha]
      · rw [show mapAdd ((q, w) :: rest) k v = (q, w) :: mapAdd rest k v from by
          simp [mapAdd, h]]
        by_cases hqa : q = a
        · subst hqa
          simp [catMapAmount]
        · simp [catMapAmount, hqa, ih]

/-- In a map with duplicate-free keys, each stored pair is what lookup
returns. -/
theorem catMapAmount_of_mem (m : List (String × ℚ)) (p : String × ℚ)
    (hnd : (catMapKeys m).Nodup) (hp : p ∈ m) : catMapAmount m p.1 = p.2 := by
  induction m with
  | nil => cases hp
  | cons q rest ih =>
      simp only [catMapKeys, List.map_cons, List.nodup_cons] at hnd
      rcases List.mem_cons.mp hp with rfl | hp
      · simp [catMapAmount]
      · have hne : q.1 ≠ p.1 := by
          intro hcontr
          exact hnd.1 (hcontr ▸ List.mem_map.mpr ⟨p, hp, rfl⟩)
        simpa [catMapAmount, hne] using ih hnd.2 hp

/-- Key membership across the whole accumulation loop, for any starting map. -/
theorem buildLoop_mem_keys (ts : List Transaction) :
    ∀ (m : List (String × ℚ)) (a : String),
      a ∈ catMapKeys (ts.foldl (fun m t =>
        match truthyCategoryId t with
        | none => m
        | some cid => mapAdd m cid t.amount) m) ↔
      a ∈ catMapKeys m ∨ ∃ t ∈ ts, truthyCategoryId t = some a := by
  induction ts with
  | nil => simp
  | cons t ts ih =>
      intro m a
      simp only [List.foldl_cons]
      rw [ih]
      cases h : truthyCategoryId t with
      | none => simp [h]
      | some cid =>
          simp only [h, mem_catMapKeys_mapAdd, List.mem_cons]
          constructor
          · rintro (( hm | rfl) | hex)
            · exact Or.inl hm
            · exact Or.inr ⟨t, Or.inl rfl, h⟩
            · obtain ⟨u, hu, hcid⟩ := hex
              exact Or.inr ⟨u, Or.inr hu, hcid⟩
          · rintro (hm | ⟨u, (rfl | hu), hcid⟩)
            · exact Or.inl (Or.inl hm)
            · rw [h] at hcid
              injection hcid with h2
              exact Or.inl (Or.inr h2.symm)
            · exact Or.inr ⟨u, hu, hcid⟩

/-- The accumulation loop keeps the key set duplicate-free. -/
theorem buildLoop_nodup_keys (ts : List Transaction) :
    ∀ m : List (String × ℚ), (catMapKeys m).Nodup →
      (catMapKeys (ts.foldl (fun m t =>
        match truthyCategoryId t with
        | none => m
        | some cid => mapAdd m cid t.amount) m)).Nodup := by
  induction ts with
  | nil => exact fun m h => h
  | cons t ts ih =>
      intro m h
      simp only [List.foldl_cons]
      cases htr : truthyCategoryId t with
      | none => exact ih m h
      | some cid => exact ih _ (nodup_catMapKeys_mapAdd m cid t.amount h)

/-- The amount the loop accumulates under each key, for any starting map. -/
theorem buildLoop_amount (ts : List Transaction) :
    ∀ (m : List (String × ℚ)) (k : String),
      catMapAmount (ts.foldl (fun m t =>
        match truthyCategoryId t with
        | none => m
        | some cid => mapAdd m cid t.amount) m) k =
      catMapAmount m k + accumulatedAmount ts k := by
  induction ts with
  | nil => simp [accumulatedAmount, sumAmounts]
  | cons t ts ih =>
      intro m k
      simp only [List.foldl_cons]
      rw [ih]
      cases h : truthyCategoryId t with
      | none =>
          have hpred : (decide (truthyCategoryId t = some k)) = false := by
            simp [h]
          simp [accumulatedAmount, List.filter_cons, hpred]
      | some cid =>
          by_cases hk : cid = k
          · subst hk
            have hpred : (decide (truthyCategoryId t = some cid)) = true := by
              simp [h]
            simp [accumulatedAmount, List.filter_cons, hpred, sumAmounts_cons,
              catMapAmount_mapAdd_self]
            ring
          · have hpred : (decide (truthyCategoryId t = some k)) = false := by
              simp [h, hk]
            simp [accumulatedAmount, List.filter_cons, hpred,
              catMapAmount_mapAdd_ne _ _ _ _ (fun hcontr => hk hcontr.symm)]

/-- Key membership in `buildCategoryMap`. -/
theorem mem_keys_buildCategoryMap (ts : List Transaction) (a : String) :
    a ∈ catMapKeys (buildCategoryMap ts) ↔ ∃ t ∈ ts, truthyCategoryId t = some a := by
  rw [buildCategoryMap, buildLoop_mem_keys]
  simp [catMapKeys]

/-- `buildCategoryMap` has duplicate-free keys. -/
theorem nodup_keys_buildCategoryMap (ts : List Transaction) :
    (catMapKeys (buildCategoryMap ts)).Nodup := by
  exact buildLoop_nodup_keys ts [] (by simp [catMapKeys])

/-- `buildCategoryMap` stores under each key the accumulated amount. -/
theorem amount_buildCategoryMap (ts : List Transaction) (k : String) :
    catMapAmount (buildCategoryMap ts) k = accumulatedAmount ts k := by
  rw [buildCategoryMap, buildLoop_amount]
  simp [catMapAmount]

/-- Characterisation of a successful entry construction. -/
theorem entryOfPair_eq_some (cats : List Category) (total : ℚ) (p : String × ℚ)
    (e : CategoryExpense) :
    entryOfPair cats total p = some e ↔
    ∃ c, (cats.find? fun cc => cc.id == p.1) = some c ∧
      e = { categoryId := p.1, categoryName := c.name, categoryIcon := c.icon,
            categoryColor := c.color, amount := p.2, percentage := p.2 / total * 100 } := by
  simp only [entryOfPair, Option.map_eq_some']
  constructor
  · rintro ⟨c, hc, rfl⟩
    exact ⟨c, hc, rfl⟩
  · rintro ⟨c, hc, rfl⟩
    exact ⟨c, hc, rfl⟩

/-- An entry's `categoryId` is the map key it came from. -/
theorem entryOfPair_categoryId (cats : List Category) (total : ℚ) (p : String × ℚ)
    (e : CategoryExpense) (h : entryOfPair cats total p = some e) : e.categoryId = p.1 := by
  rcases (entryOfPair_eq_some cats total p e).mp h with ⟨c, _, rfl⟩
  rfl

/-- Membership in the pushed-entries list. -/
theorem mem_categoryEntries (m : List (String × ℚ)) (cats : List Category) (total : ℚ)
    (e : CategoryExpense) :
    e ∈ categoryEntries m cats total ↔ ∃ p ∈ m, entryOfPair cats total p = some e := by
  simp [categoryEntries, List.mem_filterMap]

/-- The ids of the pushed entries form a sublist of the map keys. -/
theorem categoryEntries_ids_sublist (m : List (String × ℚ)) (cats : List Category)
    (total : ℚ) :
    ((categoryEntries m cats total).map fun e => e.categoryId).Sublist (catMapKeys m) := by
  induction m with
  | nil => simp [categoryEntries, catMapKeys]
  | cons p rest ih =>
      simp only [categoryEntries, List.filterMap_cons, catMapKeys, List.map_cons]
      cases h : entryOfPair cats total p with
      | none => exact List.Sublist.cons p.1 ih
      | some e =>
          simp only [List.map_cons]
          rw [entryOfPair_categoryId cats total p e h]
          exact List.Sublist.cons₂ p.1 ih

/-- The sort step is a permutation (it is an insertion sort). -/
theorem sortAmountDesc_perm (l : List CategoryExpense) : (sortAmountDesc l).Perm l :=
  List.perm_insertionSort _ l

/-- The sort step sorts descending by `amount`. -/
theorem sortAmountDesc_sorted (l : List CategoryExpense) :
    (sortAmountDesc l).Pairwise fun a b => b.amount ≤ a.amount := by
  haveI : IsTotal CategoryExpense fun a b => b.amount ≤ a.amount :=
    ⟨fun a b => le_total b.amount a.amount⟩
  haveI : IsTrans CategoryExpense fun a b => b.amount ≤ a.amount :=
    ⟨fun _ _ _ h1 h2 => le_trans h2 h1⟩
  exact List.sorted_insertionSort _ l

/-- For a non-empty category id, accumulating by truthy id is the same as
accumulating by the raw `categoryId` field. -/
theorem accumulatedAmount_eq_filter (l : List Transaction) (cid : String) (h : cid ≠ "") :
    accumulatedAmount l cid =
      sumAmounts (l.filter fun t => decide (t.categoryId = some cid)) := by
  unfold accumulatedAmount
  congr 1
  apply List.filter_congr
  intro t _
  cases ht : t.categoryId with
  | none => simp [truthyCategoryId, ht]
  | some c =>
      by_cases hc : c = ""
      · subst hc
        simp only [truthyCategoryId, ht, if_pos rfl]
        simp [Ne.symm h]
      · simp [truthyCategoryId, ht, hc]

/-- Which category ids appear in the sorted breakdown pipeline. -/
theorem mem_categoryPipeline (l : List Transaction) (cats : List Category) (T : ℚ)
    (cid : String) :
    (∃ e ∈ sortAmountDesc (categoryEntries (buildCategoryMap l) cats T),
        e.categoryId = cid) ↔
    (cid ≠ "" ∧ (∃ t ∈ l, t.categoryId = some cid) ∧
      ((cats.find? fun c => c.id == cid).isSome = true)) := by
  constructor
  · rintro ⟨e, he, rfl⟩
    have he2 : e ∈ categoryEntries (buildCategoryMap l) cats T :=
      (sortAmountDesc_perm _).mem_iff.mp he
    rcases (mem_categoryEntries _ _ _ _).mp he2 with ⟨p, hp, hsome⟩
    rcases (entryOfPair_eq_some _ _ _ _).mp hsome with ⟨c, hfind, rfl⟩
    have hkey : p.1 ∈ catMapKeys (buildCategoryMap l) := List.mem_map.mpr ⟨p, hp, rfl⟩
    rcases (mem_keys_buildCategoryMap _ _).mp hkey with ⟨t, ht, htr⟩
    rcases (truthyCategoryId_eq_some t p.1).mp htr with ⟨hcat, hne⟩
    refine ⟨hne, ⟨t, ht, hcat⟩, ?_⟩
    rw [hfind]
    rfl
  · rintro ⟨hne, ⟨t, ht, hcat⟩, hsome⟩
    have htr : truthyCategoryId t = some cid :=
      (truthyCategoryId_eq_some t cid).mpr ⟨hcat, hne⟩
    have hkey : cid ∈ catMapKeys (buildCategoryMap l) :=
      (mem_keys_buildCategoryMap _ _).mpr ⟨t, ht, htr⟩
    rcases List.mem_map.mp hkey with ⟨p, hp, hp1⟩
    rcases Option.isSome_iff_exists.mp hsome with ⟨c, hc⟩
    refine ⟨⟨p.1, c.name, c.icon, c.color, p.2, p.2 / T * 100⟩, ?_, hp1⟩
    apply (sortAmountDesc_perm _).mem_iff.mpr
    apply (mem_categoryEntries _ _ _ _).mpr
    refine ⟨p, hp, (entryOfPair_eq_some _ _ _ _).mpr ⟨c, ?_, rfl⟩⟩
    rw [hp1]
    exact hc

/-- Field contents of every entry of the sorted breakdown pipeline. -/
theorem fields_categoryPipeline (l : List Transaction) (cats : List Category) (T : ℚ) :
    ∀ e ∈ sortAmountDesc (categoryEntries (buildCategoryMap l) cats T),
      e.amount = sumAmounts (l.filter fun t => decide (t.categoryId = some e.categoryId)) ∧
      e.percentage = e.amount / T * 100 ∧
      ∃ c, (cats.find? fun cc => cc.id == e.categoryId) = some c ∧
        e.categoryName = c.name ∧ e.categoryIcon = c.icon ∧ e.categoryColor = c.color := by
  intro e he
  have he2 : e ∈ categoryEntries (buildCategoryMap l) cats T :=
    (sortAmountDesc_perm _).mem_iff.mp he
  rcases (mem_categoryEntries _ _ _ _).mp he2 with ⟨p, hp, hsome⟩
  rcases (entryOfPair_eq_some _ _ _ _).mp hsome with ⟨c, hfind, rfl⟩
  have hval : catMapAmount (buildCategoryMap l) p.1 = p.2 :=
    catMapAmount_of_mem _ p (nodup_keys_buildCategoryMap l) hp
  have hkey : p.1 ∈ catMapKeys (buildCategoryMap l) := List.mem_map.mpr ⟨p, hp, rfl⟩
  rcases (mem_keys_buildCategoryMap _ _).mp hkey with ⟨t, ht, htr⟩
  have hne := ((truthyCategoryId_eq_some t p.1).mp htr).2
  refine ⟨?_, rfl, c, hfind, rfl, rfl, rfl⟩
  show p.2 = _
  rw [← hval, amount_buildCategoryMap, accumulatedAmount_eq_filter l p.1 hne]

/-- The breakdown pipeline never repeats a category id. -/
theorem nodup_categoryPipeline (l : List Transaction) (cats : List Category) (T : ℚ) :
    ((sortAmountDesc (categoryEntries (buildCategoryMap l) cats T)).map
      fun e => e.categoryId).Nodup := by
  have hperm := (sortAmountDesc_perm (categoryEntries (buildCategoryMap l) cats T)).map
    fun e => e.categoryId
  rw [hperm.nodup_iff]
  exact (categoryEntries_ids_sublist _ _ _).nodup (nodup_keys_buildCategoryMap l)

/-- C2 counterexample: the claim as stated fails for an empty-string
category id.  `emptyIdTx` is an expense referencing `categoryId = ""`, and a
category with id `""` exists, so the claim requires an entry for it; but
`if (t.categoryId)` is falsy on the empty string, so the code produces no
entry at all. -/
theorem calculateCategoryData_claim_counterexample :
    calculateCategoryData [emptyIdTx] [emptyIdCat] TxType.expense = [] ∧
    sumAmounts (transactionsOfType [emptyIdTx] TxType.expense) ≠ 0 ∧
    emptyIdTx ∈ transactionsOfType [emptyIdTx] TxType.expense ∧
    emptyIdTx.categoryId = some emptyIdCat.id ∧
    (([emptyIdCat].find? fun c => c.id == emptyIdCat.id).isSome = true) := by
  refine ⟨?_, ?_, ?_, rfl, rfl⟩
  · norm_num +decide [calculateCategoryData, buildCategoryMap, categoryEntries,
      sortAmountDesc, truthyCategoryId, emptyIdTx, emptyIdCat, List.filter,
      List.insertionSort]
  · norm_num +decide [sumAmounts, transactionsOfType, emptyIdTx, List.filter]
  · norm_num +decide [transactionsOfType, emptyIdTx, List.filter]

/-- C2 (amended: entries are keyed by the non-empty referenced category ids;
transactions with a missing, empty-string, or dangling `categoryId` produce
no entry): when the type total is zero the breakdown is empty; otherwise it
has exactly one entry per non-empty category id that is referenced by a
transaction of the type and resolves to an existing category, carrying the
accumulated amount, `percentage = amount / total × 100`, the resolved
category's fields, and sorted descending by amount. -/
theorem calculateCategoryData_spec (txs : List Transaction) (cats : List Category)
    (ty : TxType) :
    (sumAmounts (transactionsOfType txs ty) = 0 →
      calculateCategoryData txs cats ty = []) ∧
    (sumAmounts (transactionsOfType txs ty) ≠ 0 →
      ((calculateCategoryData txs cats ty).map fun e => e.categoryId).Nodup ∧
      (∀ cid : String,
        (∃ e ∈ calculateCategoryData txs cats ty, e.categoryId = cid) ↔
        (cid ≠ "" ∧ (∃ t ∈ transactionsOfType txs ty, t.categoryId = some cid) ∧
          ((cats.find? fun c => c.id == cid).isSome = true))) ∧
      (∀ e ∈ calculateCategoryData txs cats ty,
        e.amount = sumAmounts ((transactionsOfType txs ty).filter
          fun t => decide (t.categoryId = some e.categoryId)) ∧
        e.percentage = e.amount / sumAmounts (transactionsOfType txs ty) * 100 ∧
        ∃ c, (cats.find? fun cc => cc.id == e.categoryId) = some c ∧
          e.categoryName = c.name ∧ e.categoryIcon = c.icon ∧
          e.categoryColor = c.color) ∧
      (calculateCategoryData txs cats ty).Pairwise fun a b => b.amount ≤ a.amount) := by
  have htot : ((txs.filter fun t => decide (t.type = ty)).foldl
      (fun sum t => sum + t.amount) 0) = sumAmounts (transactionsOfType txs ty) := by
    rw [foldl_amount_eq]
    simp [transactionsOfType]
  constructor
  · intro h0
    simp only [calculateCategoryData]
    rw [htot, if_pos h0]
  · intro h0
    have hr : calculateCategoryData txs cats ty =
        sortAmountDesc (categoryEntries (buildCategoryMap (transactionsOfType txs ty))
          cats (sumAmounts (transactionsOfType txs ty))) := by
      simp only [calculateCategoryData]
      rw [htot, if_neg h0]
      rfl
    rw [hr]
    exact ⟨nodup_categoryPipeline _ _ _, fun cid => mem_categoryPipeline _ _ _ cid,
      fields_categoryPipeline _ _ _, sortAmountDesc_sorted _⟩

/-- C2 witness: the amended theorem applied to the concrete January 2026
expenses of §8 of the spec. -/
theorem calculateCategoryData_spec_witness :
    sumAmounts (transactionsOfType sampleJanuary TxType.expense) ≠ 0 ∧
    ((calculateCategoryData sampleJanuary sampleCats TxType.expense).map
      fun e => e.categoryId).Nodup ∧
    (calculateCategoryData sampleJanuary sampleCats TxType.expense).Pairwise
      (fun a b => b.amount ≤ a.amount) := by
  have hne : sumAmounts (transactionsOfType sampleJanuary TxType.expense) ≠ 0 := by
    norm_num +decide [sumAmounts, transactionsOfType, sampleJanuary, List.filter]
  have h := (calculateCategoryData_spec sampleJanuary sampleCats TxType.expense).2 hne
  exact ⟨hne, h.1, h.2.2.2⟩

/-- C10: the specialised expense breakdown `calculateCategoryExpenses` is
extensionally the type-parameterised breakdown `calculateCategoryData`
applied to the expense type. -/
theorem calculateCategoryExpenses_eq_categoryData (txs : List Transaction)
    (cats : List Category) :
    calculateCategoryExpenses txs cats = calculateCategoryData txs cats TxType.expense :=
  rfl

/-- C9 counterexample: the claim requires a `+` prefix for every `p ≥ 0`,
but `formatPercentage 0` renders without any sign (the code tests
`percentage > 0`, strictly). -/
theorem formatPercentage_claim_counterexample :
    (0 : ℚ) ≥ 0 ∧ formatPercentage 0 = "0.0%" ∧
      formatPercentage 0 ≠ "+" ++ toFixed1 0 ++ "%" := by
  have hn : Int.floor ((0:ℚ) * 10 + 1 / 2) = 0 := by
    norm_num
  have h1 : toFixed1 0 = "0.0" := by
    simp only [toFixed1]
    rw [hn, if_neg (lt_irrefl (0:ℚ))]
    decide
  have h2 : formatPercentage 0 = "0.0%" := by
    simp only [formatPercentage]
    rw [if_neg (lt_irrefl (0:ℚ)), h1]
    decide
  refine ⟨le_refl 0, h2, ?_⟩
  rw [h2, h1]
  decide

/-- Prepending the empty string is the identity. -/
theorem empty_string_append (s : String) : "" ++ s = s := by
  cases s with
  | mk data => rfl

/-- C9 (amended: the `+` prefix appears exactly for strictly positive
values): `formatPercentage` renders the one-decimal `toFixed(1)` form
followed by `%`, with a `+` prefix when `p > 0` and no added sign when
`p ≤ 0` (negative values already carry `-` from the number itself). -/
theorem formatPercentage_spec (p : ℚ) :
    (0 < p → formatPercentage p = "+" ++ toFixed1 p ++ "%") ∧
    (p ≤ 0 → formatPercentage p = toFixed1 p ++ "%") := by
  constructor
  · intro h
    simp only [formatPercentage]
    rw [if_pos h]
  · intro h
    simp only [formatPercentage]
    rw [if_neg (not_lt.mpr h), empty_string_append]

/-- C9 witness: the amended theorem at the repo test's own inputs
(`10.5 ↦ "+10.5%"`, `-5.3 ↦ "-5.3%"`). -/
theorem formatPercentage_spec_witness :
    (0 < (21 / 2 : ℚ) ∧ formatPercentage (21 / 2) = "+10.5%") ∧
    ((-53 / 10 : ℚ) ≤ 0 ∧ formatPercentage (-53 / 10) = "-5.3%") := by
  have h1 : toFixed1 (21 / 2 : ℚ) = "10.5" := by
    have hn : Int.floor ((21 / 2 : ℚ) * 10 + 1 / 2) = 105 := by norm_num
    have hs : ¬((21 / 2 : ℚ) < 0) := by norm_num
    simp only [toFixed1]
    rw [hn, if_neg hs]
    decide
  have h2 : toFixed1 (-53 / 10 : ℚ) = "-5.3" := by
    have hn : Int.floor ((-53 / 10 : ℚ) * 10 + 1 / 2) = -53 := by norm_num
    have hs : (-53 / 10 : ℚ) < 0 := by norm_num
    simp only [toFixed1]
    rw [hn, if_pos hs]
    decide
  refine ⟨⟨by norm_num, ?_⟩, ⟨by norm_num, ?_⟩⟩
  · rw [(formatPercentage_spec (21 / 2)).1 (by norm_num), h1]
    decide
  · rw [(formatPercentage_spec (-53 / 10)).2 (by norm_num), h2]
    decide

/-- The transaction sort is a permutation of its input. -/
theorem sortTransactionsByDateDesc_perm (l : List Transaction) :
    (sortTransactionsByDateDesc l).Perm l :=
  List.perm_insertionSort _ l

/-- The transaction sort orders by date descending. -/
theorem sortTransactionsByDateDesc_sorted (l : List Transaction) :
    (sortTransactionsByDateDesc l).Pairwise fun a b => b.date.time ≤ a.date.time := by
  haveI : IsTotal Transaction fun a b => b.date.time ≤ a.date.time :=
    ⟨fun a b => le_total b.date.time a.date.time⟩
  haveI : IsTrans Transaction fun a b => b.date.time ≤ a.date.time :=
    ⟨fun _ _ _ h1 h2 => le_trans h2 h1⟩
  exact List.sorted_insertionSort _ l

/-- The category sort is a permutation of its input. -/
theorem sortCategoriesByOrderAsc_perm (l : List Category) :
    (sortCategoriesByOrderAsc l).Perm l :=
  List.perm_insertionSort _ l

/-- The category sort orders by `order` ascending. -/
theorem sortCategoriesByOrderAsc_sorted (l : List Category) :
    (sortCategoriesByOrderAsc l).Pairwise fun a b => a.order ≤ b.order := by
  haveI : IsTotal Category fun a b => a.order ≤ b.order :=
    ⟨fun a b => le_total a.order b.order⟩
  haveI : IsTrans Category fun a b => a.order ≤ b.order :=
    ⟨fun _ _ _ h1 h2 => le_trans h1 h2⟩
  exact List.sorted_insertionSort _ l

/-- C3: on both backends, `getTransactions` returns the stored transaction
collection sorted by date descending and `getCategories` returns the stored
category collection sorted by `order` ascending. -/
theorem getLists_sorted (sw : WebStore) (sn : NativeStore) :
    ((getTransactionsWeb sw).Pairwise fun a b => b.date.time ≤ a.date.time) ∧
    (∀ l, sw.transactions = some l → (getTransactionsWeb sw).Perm l) ∧
    ((getCategoriesWeb sw).Pairwise fun a b => a.order ≤ b.order) ∧
    (∀ l, sw.categories = some l → (getCategoriesWeb sw).Perm l) ∧
    ((getTransactionsNative sn).Pairwise fun a b => b.date.time ≤ a.date.time) ∧
    (∀ db, sn.db = some db → (getTransactionsNative sn).Perm db.transactions) ∧
    ((getCategoriesNative sn).Pairwise fun a b => a.order ≤ b.order) ∧
    (∀ db, sn.db = some db → (getCategoriesNative sn).Perm db.categories) := by
  refine ⟨?_, ?_, ?_, ?_, ?_, ?_, ?_, ?_⟩
  · cases h : sw.transactions with
    | none => simp [getTransactionsWeb, h]
    | some l => simpa [getTransactionsWeb, h] using sortTransactionsByDateDesc_sorted l
  · intro l h
    simpa [getTransactionsWeb, h] using sortTransactionsByDateDesc_perm l
  · cases h : sw.categories with
    | none => simp [getCategoriesWeb, h]
    | some l => simpa [getCategoriesWeb, h] using sortCategoriesByOrderAsc_sorted l
  · intro l h
    simpa [getCategoriesWeb, h] using sortCategoriesByOrderAsc_perm l
  · cases h : sn.db with
    | none => simp [getTransactionsNative, h]
    | some db => simpa [getTransactionsNative, h] using
        sortTransactionsByDateDesc_sorted db.transactions
  · intro db h
    simpa [getTransactionsNative, h] using sortTransactionsByDateDesc_perm db.transactions
  · cases h : sn.db with
    | none => simp [getCategoriesNative, h]
    | some db => simpa [getCategoriesNative, h] using
        sortCategoriesByOrderAsc_sorted db.categories
  · intro db h
    simpa [getCategoriesNative, h] using sortCategoriesByOrderAsc_perm db.categories

/-- C3 witness: the theorem applied to concrete stores holding the §8 data,
together with an explicit evaluation of the sorted output. -/
theorem getLists_sorted_witness :
    (sampleWebStore.transactions = some sampleJanuary ∧
      (getTransactionsWeb sampleWebStore).Perm sampleJanuary) ∧
    ((getTransactionsWeb sampleWebStore).Pairwise fun a b => b.date.time ≤ a.date.time) ∧
    (sampleNativeStore.db = some ⟨sampleCats, sampleJanuary, []⟩ ∧
      (getCategoriesNative sampleNativeStore).Perm sampleCats) ∧
    (getTransactionsWeb sampleWebStore).map (fun t => t.id) = ["t3", "t2", "t1"] := by
  have h := getLists_sorted sampleWebStore sampleNativeStore
  refine ⟨⟨rfl, h.2.1 sampleJanuary rfl⟩, h.1, ⟨rfl, h.2.2.2.2.2.2.2 _ rfl⟩, ?_⟩
  decide

/-- The migration body is the identity when no database is available. -/
theorem migrateBody_db_none (s : NativeStore) (h : s.db = none) :
    migrateFromAsyncStorageBody s = s := by
  simp [migrateFromAsyncStorageBody, h]

/-- After the migration body runs against a database, the migrated flag is
set. -/
theorem migrateBody_flag (s : NativeStore) (db : DbState) (h : s.db = some db) :
    (migrateFromAsyncStorageBody s).kvMigrated = some "true" := by
  cases c1 : s.kvCategories <;> cases c2 : s.kvTransactions <;> cases c3 : s.kvThemeMode <;>
    simp [migrateFromAsyncStorageBody, h, c1, c2, c3]

/-- The migration body does not touch the legacy key-value collections. -/
theorem migrateBody_kv (s : NativeStore) :
    (migrateFromAsyncStorageBody s).kvCategories = s.kvCategories ∧
    (migrateFromAsyncStorageBody s).kvTransactions = s.kvTransactions ∧
    (migrateFromAsyncStorageBody s).kvThemeMode = s.kvThemeMode := by
  cases h : s.db with
  | none => simp [migrateFromAsyncStorageBody, h]
  | some db =>
      cases c1 : s.kvCategories <;> cases c2 : s.kvTransactions <;>
        cases c3 : s.kvThemeMode <;>
        simp [migrateFromAsyncStorageBody, h, c1, c2, c3]

/-- After the migration body runs against a database, a database is still
there. -/
theorem migrateBody_db_isSome (s : NativeStore) (db : DbState) (h : s.db = some db) :
    ∃ db3, (migrateFromAsyncStorageBody s).db = some db3 := by
  cases c1 : s.kvCategories <;> cases c2 : s.kvTransactions <;> cases c3 : s.kvThemeMode <;>
    simp [migrateFromAsyncStorageBody, h, c1, c2, c3] <;> split_ifs <;> simp

/-- The categories table produced by the migration body. -/
theorem migrateBody_categories (s : NativeStore) (db0 : DbState) (h : s.db = some db0) :
    dbCategoriesOf (migrateFromAsyncStorageBody s) =
      (match s.kvCategories with
      | none => db0.categories
      | some cats => cats.foldl (upsertBy fun c => c.id) db0.categories) := by
  cases c1 : s.kvCategories <;> cases c2 : s.kvTransactions <;> cases c3 : s.kvThemeMode <;>
    simp [migrateFromAsyncStorageBody, dbCategoriesOf, h, c1, c2, c3, apply_ite] <;>
    split_ifs <;> simp

/-- The transactions table produced by the migration body. -/
theorem migrateBody_transactions (s : NativeStore) (db0 : DbState) (h : s.db = some db0) :
    dbTransactionsOf (migrateFromAsyncStorageBody s) =
      (match s.kvTransactions with
      | none => db0.transactions
      | some txs => txs.foldl (upsertBy fun t => t.id) db0.transactions) := by
  cases c1 : s.kvCategories <;> cases c2 : s.kvTransactions <;> cases c3 : s.kvThemeMode <;>
    simp [migrateFromAsyncStorageBody, dbTransactionsOf, h, c1, c2, c3, apply_ite] <;>
    split_ifs <;> simp

/-- The settings table produced by the migration body. -/
theorem migrateBody_settings (s : NativeStore) (db0 : DbState) (h : s.db = some db0) :
    dbSettingsOf (migrateFromAsyncStorageBody s) =
      (match s.kvThemeMode with
      | none => db0.settings
      | some tm =>
          if tm = "" then db0.settings
          else upsertBy (fun p => p.1) db0.settings ("theme_mode", tm)) := by
  cases c1 : s.kvCategories <;> cases c2 : s.kvTransactions <;> cases c3 : s.kvThemeMode <;>
    simp [migrateFromAsyncStorageBody, dbSettingsOf, h, c1, c2, c3, apply_ite] <;>
    split_ifs <;> simp

/-- `migrateFromAsyncStorage` is an immediate no-op once the flag is set. -/
theorem migrateFromAsyncStorage_migrated (s : NativeStore)
    (h : s.kvMigrated = some "true") : migrateFromAsyncStorage s = s := by
  simp [migrateFromAsyncStorage, h]

/-- After `migrateFromAsyncStorage` runs against a database, the flag is set. -/
theorem migrate_flag_some_db (s : NativeStore) (db : DbState) (h : s.db = some db) :
    (migrateFromAsyncStorage s).kvMigrated = some "true" := by
  by_cases hf : s.kvMigrated = some "true"
  · rw [migrateFromAsyncStorage_migrated s hf]
    exact hf
  · rw [migrateFromAsyncStorage, if_neg hf]
    exact migrateBody_flag s db h

/-- `migrateFromAsyncStorage` preserves presence of the database. -/
theorem migrate_db_isSome (s : NativeStore) (db : DbState) (h : s.db = some db) :
    ∃ db1, (migrateFromAsyncStorage s).db = some db1 := by
  by_cases hf : s.kvMigrated = some "true"
  · rw [migrateFromAsyncStorage_migrated s hf]
    exact ⟨db, h⟩
  · rw [migrateFromAsyncStorage, if_neg hf]
    exact migrateBody_db_isSome s db h

/-- Running the guarded migration twice is running it once. -/
theorem migrateFromAsyncStorage_idem (s : NativeStore) :
    migrateFromAsyncStorage (migrateFromAsyncStorage s) = migrateFromAsyncStorage s := by
  by_cases h : s.kvMigrated = some "true"
  · rw [migrateFromAsyncStorage_migrated s h, migrateFromAsyncStorage_migrated s h]
  · cases hdb : s.db with
    | none =>
        have hbody : migrateFromAsyncStorage s = s := by
          rw [migrateFromAsyncStorage, if_neg h, migrateBody_db_none s hdb]
        rw [hbody, hbody]
    | some db =>
        exact migrateFromAsyncStorage_migrated _ (migrate_flag_some_db s db hdb)

/-- The seeded default category list always has 11 entries. -/
theorem seededCategories_length (gen : Nat → String) (now : String) :
    (seededCategories gen now).length = 11 := by
  simp [seededCategories, DEFAULT_CATEGORIES]

/-- C4: on both backends, running `initializeStorage` twice in a row from
any state equals running it once — the second run performs no writes (Web:
the initialized flag is set; Native: the categories table is non-empty), so
the category collection (ids and count) is unchanged. -/
theorem initializeStorage_idempotent :
    (∀ (gen gen' : Nat → String) (now now' : String) (s : WebStore),
      initializeStorageWeb gen' now' (initializeStorageWeb gen now s) =
        initializeStorageWeb gen now s) ∧
    (∀ (gen gen' : Nat → String) (now now' : String) (s : NativeStore),
      initializeStorageNative gen' now' (initializeStorageNative gen now s) =
        initializeStorageNative gen now s) := by
  constructor
  · intro gen gen' now now' s
    by_cases h : s.initialized = some "true" <;> simp [initializeStorageWeb, h]
  · intro gen gen' now now' s
    cases hdb : s.db with
    | none => simp [initializeStorageNative, hdb]
    | some db =>
        obtain ⟨db1, hdb1⟩ := migrate_db_isSome s db hdb
        have hflag := migrate_flag_some_db s db hdb
        by_cases hlen : db1.categories.length = 0
        · obtain ⟨newCats, hnc⟩ : ∃ x, db1.categories ++ seededCategories gen now = x :=
            ⟨_, rfl⟩
          have hrun1 : initializeStorageNative gen now s =
              { migrateFromAsyncStorage s with db := some { db1 with categories := newCats } } := by
            simp only [initializeStorageNative, hdb, hdb1, if_pos hlen, hnc]
          rw [hrun1]
          have hmig : migrateFromAsyncStorage
              { migrateFromAsyncStorage s with db := some { db1 with categories := newCats } } =
              { migrateFromAsyncStorage s with db := some { db1 with categories := newCats } } :=
            migrateFromAsyncStorage_migrated _ hflag
          have hlen2 : ({ db1 with categories := newCats } : DbState).categories.length ≠ 0 := by
            simp [← hnc, hlen, seededCategories_length]
          simp only [initializeStorageNative, hmig, if_neg hlen2]
        · have hrun1 : initializeStorageNative gen now s = migrateFromAsyncStorage s := by
            simp only [initializeStorageNative, hdb, hdb1, if_neg hlen]
          rw [hrun1]
          simp only [initializeStorageNative, hdb1, migrateFromAsyncStorage_idem s,
            if_neg hlen]

/-- C4 witness: the theorem applied to a concrete uninitialized Web store
and a concrete native store, with the resulting category count evaluated. -/
theorem initializeStorage_idempotent_witness :
    (initializeStorageWeb (fun n => toString n) "now"
      (initializeStorageWeb (fun n => "cat_" ++ toString n) "t0"
        ⟨none, none, none, none⟩) =
      initializeStorageWeb (fun n => "cat_" ++ toString n) "t0" ⟨none, none, none, none⟩) ∧
    ((initializeStorageWeb (fun n => "cat_" ++ toString n) "t0"
        ⟨none, none, none, none⟩).categories.map (fun l => l.length) = some 11) ∧
    (initializeStorageNative (fun n => toString n) "now"
      (initializeStorageNative (fun n => "cat_" ++ toString n) "t0"
        ⟨some ⟨[], [], []⟩, none, none, none, none⟩) =
      initializeStorageNative (fun n => "cat_" ++ toString n) "t0"
        ⟨some ⟨[], [], []⟩, none, none, none, none⟩) := by
  refine ⟨initializeStorage_idempotent.1 _ _ _ _ _, ?_, initializeStorage_idempotent.2 _ _ _ _ _⟩
  simp [initializeStorageWeb, seededCategories_length]

/-- The key set after an upsert. -/
theorem mem_keys_upsertBy (key : α → String) (table : List α) (row : α) (k : String) :
    k ∈ (upsertBy key table row).map key ↔ k ∈ table.map key ∨ k = key row := by
  unfold upsertBy
  by_cases h : table.any fun r => key r == key row
  · rw [if_pos h]
    rcases List.any_eq_true.mp h with ⟨r0, hr0, hkey⟩
    rw [beq_iff_eq] at hkey
    rw [List.map_map]
    simp only [List.mem_map, Function.comp]
    constructor
    · rintro ⟨r, hr, hrk⟩
      by_cases hrow : key r = key row
      · right
        rw [← hrk]
        simp [hrow]
      · left
        refine ⟨r, hr, ?_⟩
        rwa [if_neg (by simpa using hrow)] at hrk
    · rintro (⟨r, hr, hrk⟩ | rfl)
      · refine ⟨r, hr, ?_⟩
        by_cases hrow : key r = key row
        · rw [if_pos (by simpa using hrow), ← hrk, hrow]
        · rw [if_neg (by simpa using hrow), hrk]
      · refine ⟨r0, hr0, ?_⟩
        rw [if_pos (by simpa using hkey)]
  · rw [if_neg h]
    rw [List.map_append, List.mem_append]
    simp

/-- Upserting a row whose key is already present keeps the row count. -/
theorem length_upsertBy_of_mem (key : α → String) (table : List α) (row : α)
    (h : key row ∈ table.map key) : (upsertBy key table row).length = table.length := by
  unfold upsertBy
  rcases List.mem_map.mp h with ⟨r, hr, hrk⟩
  rw [if_pos (List.any_eq_true.mpr ⟨r, hr, by simp [hrk]⟩)]
  simp

/-- Upserts only grow the key set. -/
theorem keys_subset_upsertBy (key : α → String) (table : List α) (row : α) :
    ∀ k ∈ table.map key, k ∈ (upsertBy key table row).map key := by
  intro k hk
  exact (mem_keys_upsertBy key table row k).mpr (Or.inl hk)

/-- A batch of upserts only grows the key set. -/
theorem keys_subset_foldl_upsertBy (key : α → String) (rows : List α) :
    ∀ (table : List α) (k : String), k ∈ table.map key →
      k ∈ (rows.foldl (upsertBy key) table).map key := by
  induction rows with
  | nil => exact fun table k hk => hk
  | cons r0 rows ih =>
      intro table k hk
      simp only [List.foldl_cons]
      exact ih _ k (keys_subset_upsertBy key table r0 k hk)

/-- After a batch of upserts, every batched key is present. -/
theorem keys_mem_foldl_upsertBy (key : α → String) (rows : List α) :
    ∀ (table : List α) (r : α), r ∈ rows →
      key r ∈ (rows.foldl (upsertBy key) table).map key := by
  induction rows with
  | nil => intro table r hr; cases hr
  | cons r0 rows ih =>
      intro table r hr
      rcases List.mem_cons.mp hr with rfl | hr
      · simp only [List.foldl_cons]
        exact keys_subset_foldl_upsertBy key rows _ _
          ((mem_keys_upsertBy key table r (key r)).mpr (Or.inr rfl))
      · simp only [List.foldl_cons]
        exact ih _ r hr

/-- A batch of upserts whose keys are all present keeps the row count. -/
theorem length_foldl_upsertBy (key : α → String) (rows : List α) :
    ∀ table : List α, (∀ r ∈ rows, key r ∈ table.map key) →
      (rows.foldl (upsertBy key) table).length = table.length := by
  induction rows with
  | nil => intro table _; rfl
  | cons r0 rows ih =>
      intro table hall
      simp only [List.foldl_cons]
      rw [ih (upsertBy key table r0) ?_, length_upsertBy_of_mem key table r0
        (hall r0 (List.mem_cons_self r0 rows))]
      intro r hr
      exact keys_subset_upsertBy key table r0 _ (hall r (List.mem_cons_of_mem r0 hr))

/-- C8: the A→B migration runs at most once — with the migrated flag set it
returns immediately without any write; running it twice equals running it
once; and even a forced re-run of the body (flag check bypassed) leaves
every table with the same row count, because each row is written by an
upsert keyed on its original id. -/
theorem migrateFromAsyncStorage_at_most_once (s : NativeStore) :
    (s.kvMigrated = some "true" → migrateFromAsyncStorage s = s) ∧
    migrateFromAsyncStorage (migrateFromAsyncStorage s) = migrateFromAsyncStorage s ∧
    (dbCategoriesOf (migrateFromAsyncStorageBody (migrateFromAsyncStorageBody s))).length =
      (dbCategoriesOf (migrateFromAsyncStorageBody s)).length ∧
    (dbTransactionsOf (migrateFromAsyncStorageBody (migrateFromAsyncStorageBody s))).length =
      (dbTransactionsOf (migrateFromAsyncStorageBody s)).length ∧
    (dbSettingsOf (migrateFromAsyncStorageBody (migrateFromAsyncStorageBody s))).length =
      (dbSettingsOf (migrateFromAsyncStorageBody s)).length := by
  refine ⟨fun h => migrateFromAsyncStorage_migrated s h, migrateFromAsyncStorage_idem s,
    ?_, ?_, ?_⟩ <;>
  · cases hdb : s.db with
    | none => rw [migrateBody_db_none s hdb, migrateBody_db_none s hdb]
    | some db0 =>
        obtain ⟨db3, hdb3⟩ := migrateBody_db_isSome s db0 hdb
        have hkv := migrateBody_kv s
        first
        | · -- categories
            have hc1 := migrateBody_categories s db0 hdb
            have hc2 := migrateBody_categories (migrateFromAsyncStorageBody s) db3 hdb3
            have hc3 : db3.categories = dbCategoriesOf (migrateFromAsyncStorageBody s) := by
              simp [dbCategoriesOf, hdb3]
            rw [hc2, hkv.1]
            cases hkvc : s.kvCategories with
            | none => rw [hc3]
            | some cats =>
                rw [hc3, hc1, hkvc]
                exact length_foldl_upsertBy _ cats _ fun r hr =>
                  keys_mem_foldl_upsertBy _ cats db0.categories r hr
        | · -- transactions
            have hc1 := migrateBody_transactions s db0 hdb
            have hc2 := migrateBody_transactions (migrateFromAsyncStorageBody s) db3 hdb3
            have hc3 : db3.transactions = dbTransactionsOf (migrateFromAsyncStorageBody s) := by
              simp [dbTransactionsOf, hdb3]
            rw [hc2, hkv.2.1]
            cases hkvc : s.kvTransactions with
            | none => rw [hc3]
            | some txs =>
                rw [hc3, hc1, hkvc]
                exact length_foldl_upsertBy _ txs _ fun r hr =>
                  keys_mem_foldl_upsertBy _ txs db0.transactions r hr
        | · -- settings
            have hc1 := migrateBody_settings s db0 hdb
            have hc2 := migrateBody_settings (migrateFromAsyncStorageBody s) db3 hdb3
            have hc3 : db3.settings = dbSettingsOf (migrateFromAsyncStorageBody s) := by
              simp [dbSettingsOf, hdb3]
            rw [hc2, hkv.2.2]
            cases hkvc : s.kvThemeMode with
            | none => rw [hc3]
            | some tm =>
                by_cases htm : tm = ""
                · simp [hkvc, htm, hc3]
                · simp only [hkvc, if_neg htm]
                  have hmem : "theme_mode" ∈ db3.settings.map (fun p => p.1) := by
                    rw [hc3, hc1, hkvc]
                    simp only [if_neg htm]
                    exact (mem_keys_upsertBy _ db0.settings ("theme_mode", tm)
                      "theme_mode").mpr (Or.inr rfl)
                  rw [← hc3]
                  exact length_upsertBy_of_mem _ db3.settings ("theme_mode", tm) hmem

/-- C8 witness: the flag clause applied to a concrete migrated store. -/
theorem migrateFromAsyncStorage_at_most_once_witness :
    sampleNativeStore.kvMigrated = some "true" ∧
    migrateFromAsyncStorage sampleNativeStore = sampleNativeStore := by
  exact ⟨rfl, (migrateFromAsyncStorage_at_most_once sampleNativeStore).1 rfl⟩

/-- `findIndex` misses: nothing matched, nothing changed. -/
theorem updateFirst_not_found (p : α → Bool) (f : α → α) (l : List α)
    (h : ∀ x ∈ l, p x = false) : updateFirst p f l = (none, l) := by
  induction l with
  | nil => rfl
  | cons x xs ih =>
      have hrec := ih fun y hy => h y (List.mem_cons_of_mem x hy)
      simp only [updateFirst, h x (List.mem_cons_self x xs), hrec]
      simp

/-- `findIndex` hits the first match: that element alone is replaced. -/
theorem updateFirst_found (p : α → Bool) (f : α → α) (l₁ : List α) (x : α) (l₂ : List α)
    (h1 : ∀ y ∈ l₁, p y = false) (hx : p x = true) :
    updateFirst p f (l₁ ++ x :: l₂) = (some (f x), l₁ ++ f x :: l₂) := by
  induction l₁ with
  | nil => simp [updateFirst, hx]
  | cons y l₁ ih =>
      have hrec := ih fun z hz => h1 z (List.mem_cons_of_mem y hz)
      simp only [List.cons_append, updateFirst, h1 y (List.mem_cons_self y l₁), hrec]
      simp [hrec]

/-- `find?` returns the first match. -/
theorem find?_first (p : α → Bool) (l₁ : List α) (x : α) (l₂ : List α)
    (h1 : ∀ y ∈ l₁, p y = false) (hx : p x = true) :
    (l₁ ++ x :: l₂).find? p = some x := by
  induction l₁ with
  | nil => simp [List.find?, hx]
  | cons y l₁ ih =>
      simp only [List.cons_append, List.find?, h1 y (List.mem_cons_self y l₁)]
      exact ih fun z hz => h1 z (List.mem_cons_of_mem y hz)

/-- In a duplicate-free collection, the ids around an element differ from
its id. -/
theorem nodup_split_ne (l₁ : List Transaction) (x : Transaction) (l₂ : List Transaction)
    (hnd : ((l₁ ++ x :: l₂).map fun t => t.id).Nodup) :
    (∀ y ∈ l₁, y.id ≠ x.id) ∧ ∀ y ∈ l₂, y.id ≠ x.id := by
  rw [List.map_append, List.nodup_append] at hnd
  obtain ⟨-, hnd2, hdisj⟩ := hnd
  constructor
  · intro y hy hcontr
    exact hdisj (List.mem_map.mpr ⟨y, hy, rfl⟩) (by simp [hcontr])
  · intro y hy hcontr
    rw [List.map_cons, List.nodup_cons] at hnd2
    exact hnd2.1 (List.mem_map.mpr ⟨y, hy, hcontr⟩)

/-- An `UPDATE ... WHERE id = ?` map touches exactly the split element. -/
theorem map_replace_eq (idv : String) (updated : Transaction)
    (l₁ : List Transaction) (x : Transaction) (l₂ : List Transaction)
    (h1 : ∀ y ∈ l₁, y.id ≠ idv) (h2 : ∀ y ∈ l₂, y.id ≠ idv) (hx : x.id = idv) :
    (l₁ ++ x :: l₂).map (fun t => if t.id == idv then updated else t) =
      l₁ ++ updated :: l₂ := by
  rw [List.map_append, List.map_cons, if_pos (by simp [hx])]
  have e1 : l₁.map (fun t => if t.id == idv then updated else t) = l₁ := by
    calc l₁.map (fun t => if t.id == idv then updated else t)
        = l₁.map (fun t => t) := List.map_congr_left fun y hy => by simp [h1 y hy]
      _ = l₁ := List.map_id l₁
  have e2 : l₂.map (fun t => if t.id == idv then updated else t) = l₂ := by
    calc l₂.map (fun t => if t.id == idv then updated else t)
        = l₂.map (fun t => t) := List.map_congr_left fun y hy => by simp [h2 y hy]
      _ = l₂ := List.map_id l₂
  rw [e1, e2]

/-- Membership and size of a collection with one element replaced. -/
theorem replaced_list_spec (l₁ : List Transaction) (x updated : Transaction)
    (l₂ : List Transaction) (idv : String)
    (hxid : x.id = idv) (huid : updated.id = idv) :
    updated ∈ l₁ ++ updated :: l₂ ∧
    (∀ u : Transaction, u.id ≠ idv → (u ∈ l₁ ++ updated :: l₂ ↔ u ∈ l₁ ++ x :: l₂)) ∧
    (l₁ ++ updated :: l₂).length = (l₁ ++ x :: l₂).length := by
  refine ⟨List.mem_append_right l₁ (List.mem_cons_self updated l₂), ?_, by simp⟩
  intro u hu
  simp only [List.mem_append, List.mem_cons]
  constructor
  · rintro (h | rfl | h)
    · exact Or.inl h
    · exact absurd huid hu
    · exact Or.inr (Or.inr h)
  · rintro (h | rfl | h)
    · exact Or.inl h
    · exact absurd hxid hu
    · exact Or.inr (Or.inr h)

/-- In a duplicate-free collection containing a match, the filter that
implements delete removes exactly one element. -/
theorem filter_delete_length (txs : List Transaction) (idv : String)
    (hnd : (txs.map fun t => t.id).Nodup) (hex : ∃ t ∈ txs, t.id = idv) :
    (txs.filter fun t => !(t.id == idv)).length + 1 = txs.length := by
  obtain ⟨x, hx, hxid⟩ := hex
  obtain ⟨l₁, l₂, rfl⟩ := List.append_of_mem hx
  obtain ⟨h1, h2⟩ := nodup_split_ne l₁ x l₂ hnd
  rw [List.filter_append, List.filter_cons]
  have hcond : (!(x.id == idv)) = false := by simp [hxid]
  rw [hcond]
  have e1 : l₁.filter (fun t => !(t.id == idv)) = l₁ :=
    List.filter_eq_self.mpr fun y hy => by
      have hne : y.id ≠ idv := fun hc => h1 y hy (hc.trans hxid.symm)
      simp [hne]
  have e2 : l₂.filter (fun t => !(t.id == idv)) = l₂ :=
    List.filter_eq_self.mpr fun y hy => by
      have hne : y.id ≠ idv := fun hc => h2 y hy (hc.trans hxid.symm)
      simp [hne]
  simp [e1, e2]
  omega

/-- C5: on both backends, `updateTransaction(id, {amount: X})` on a stored
state containing the id (with duplicate-free ids, a data-model invariant)
returns the stored transaction with only `amount` set to `X` and `updatedAt`
set to the current timestamp — `id`, `createdAt` and every other field
unchanged — and the new collection contains that updated record, agrees with
the old collection on every transaction with a different id, and has the
same size. -/
theorem updateTransaction_amount_spec (idv : String) (x : ℚ) (now : String)
    (sw : WebStore) (txsw : List Transaction) (tw : Transaction)
    (hw : sw.transactions = some txsw)
    (hwnd : (txsw.map fun t => t.id).Nodup)
    (hwmem : tw ∈ txsw) (hwid : tw.id = idv)
    (sn : NativeStore) (dbn : DbState) (tn : Transaction)
    (hn : sn.db = some dbn)
    (hnnd : (dbn.transactions.map fun t => t.id).Nodup)
    (hnmem : tn ∈ dbn.transactions) (hnid : tn.id = idv) :
    ((updateTransactionWeb idv (amountOnlyUpdate x) now sw).1 =
      some { tw with amount := x, updatedAt := now } ∧
    (∃ l, (updateTransactionWeb idv (amountOnlyUpdate x) now sw).2.transactions = some l ∧
      { tw with amount := x, updatedAt := now } ∈ l ∧
      (∀ u : Transaction, u.id ≠ idv → (u ∈ l ↔ u ∈ txsw)) ∧
      l.length = txsw.length) ∧
    (updateTransactionWeb idv (amountOnlyUpdate x) now sw).2.categories = sw.categories) ∧
    ((updateTransactionNative idv (amountOnlyUpdate x) now sn).1 =
      some { tn with amount := x, updatedAt := now } ∧
    (∃ db', (updateTransactionNative idv (amountOnlyUpdate x) now sn).2.db = some db' ∧
      db'.categories = dbn.categories ∧ db'.settings = dbn.settings ∧
      { tn with amount := x, updatedAt := now } ∈ db'.transactions ∧
      (∀ u : Transaction, u.id ≠ idv → (u ∈ db'.transactions ↔ u ∈ dbn.transactions)) ∧
      db'.transactions.length = dbn.transactions.length)) := by
  constructor
  · -- Web backend
    have hgw : getTransactionsWeb sw = sortTransactionsByDateDesc txsw := by
      simp [getTransactionsWeb, hw]
    have hperm : (sortTransactionsByDateDesc txsw).Perm txsw :=
      sortTransactionsByDateDesc_perm txsw
    have hLnd : ((sortTransactionsByDateDesc txsw).map fun t => t.id).Nodup :=
      (hperm.map fun t => t.id).nodup_iff.mpr hwnd
    have htwL : tw ∈ sortTransactionsByDateDesc txsw := hperm.mem_iff.mpr hwmem
    obtain ⟨l₁, l₂, hdecomp⟩ := List.append_of_mem htwL
    have h12 := nodup_split_ne l₁ tw l₂ (hdecomp ▸ hLnd)
    obtain ⟨newL, hnewL⟩ :
        ∃ v, l₁ ++ applyUpdates tw (amountOnlyUpdate x) now :: l₂ = v := ⟨_, rfl⟩
    have hupd : updateFirst (fun t => t.id == idv)
        (fun t => applyUpdates t (amountOnlyUpdate x) now) (getTransactionsWeb sw) =
        (some (applyUpdates tw (amountOnlyUpdate x) now), newL) := by
      rw [hgw, hdecomp, ← hnewL]
      refine updateFirst_found _ _ l₁ tw l₂ (fun y hy => ?_) (by simp [hwid])
      have hne : y.id ≠ idv := fun hc => h12.1 y hy (hc.trans hwid.symm)
      simp [hne]
    have hres : updateTransactionWeb idv (amountOnlyUpdate x) now sw =
        (some (applyUpdates tw (amountOnlyUpdate x) now),
          { sw with transactions := some newL }) := by
      simp only [updateTransactionWeb, hupd]
    have happly : applyUpdates tw (amountOnlyUpdate x) now =
        { tw with amount := x, updatedAt := now } := rfl
    rw [hres, happly]
    refine ⟨rfl, ⟨newL, rfl, ?_, ?_, ?_⟩, rfl⟩
    · rw [← hnewL, ← happly]
      exact List.mem_append_right l₁ (List.mem_cons_self _ l₂)
    · intro u hu
      rw [← hnewL]
      have hmem := (replaced_list_spec l₁ tw (applyUpdates tw (amountOnlyUpdate x) now)
        l₂ idv hwid hwid).2.1 u hu
      rw [hmem, ← hdecomp]
      exact hperm.mem_iff
    · rw [← hnewL]
      have hlen := (replaced_list_spec l₁ tw (applyUpdates tw (amountOnlyUpdate x) now)
        l₂ idv hwid hwid).2.2
      rw [hlen, ← hdecomp]
      exact hperm.length_eq
  · -- Native backend
    obtain ⟨m₁, m₂, hdecomp⟩ := List.append_of_mem hnmem
    have h12 := nodup_split_ne m₁ tn m₂ (hdecomp ▸ hnnd)
    have hfind : dbn.transactions.find? (fun t => t.id == idv) = some tn := by
      rw [hdecomp]
      refine find?_first _ m₁ tn m₂ (fun y hy => ?_) (by simp [hnid])
      have hne : y.id ≠ idv := fun hc => h12.1 y hy (hc.trans hnid.symm)
      simp [hne]
    obtain ⟨newRows, hnewRows⟩ :
        ∃ v, m₁ ++ applyUpdates tn (amountOnlyUpdate x) now :: m₂ = v := ⟨_, rfl⟩
    have hmap : dbn.transactions.map
        (fun t => if t.id == idv then applyUpdates tn (amountOnlyUpdate x) now else t) =
        newRows := by
      rw [hdecomp, ← hnewRows]
      refine map_replace_eq idv _ m₁ tn m₂ (fun y hy => ?_) (fun y hy => ?_) hnid
      · exact fun hc => h12.1 y hy (hc.trans hnid.symm)
      · exact fun hc => h12.2 y hy (hc.trans hnid.symm)
    have hres : updateTransactionNative idv (amountOnlyUpdate x) now sn =
        (some (applyUpdates tn (amountOnlyUpdate x) now),
          { sn with db := some { dbn with transactions := newRows } }) := by
      simp only [updateTransactionNative, hn, hfind, hmap]
    have happly : applyUpdates tn (amountOnlyUpdate x) now =
        { tn with amount := x, updatedAt := now } := rfl
    rw [hres, happly]
    refine ⟨rfl, ⟨{ dbn with transactions := newRows }, rfl, rfl, rfl, ?_, ?_, ?_⟩⟩
    · show { tn with amount := x, updatedAt := now } ∈ newRows
      rw [← hnewRows, ← happly]
      exact List.mem_append_right m₁ (List.mem_cons_self _ m₂)
    · intro u hu
      show u ∈ newRows ↔ u ∈ dbn.transactions
      rw [← hnewRows]
      have hmem := (replaced_list_spec m₁ tn (applyUpdates tn (amountOnlyUpdate x) now)
        m₂ idv hnid hnid).2.1 u hu
      rw [hmem, ← hdecomp]
    · show newRows.length = dbn.transactions.length
      rw [← hnewRows]
      have hlen := (replaced_list_spec m₁ tn (applyUpdates tn (amountOnlyUpdate x) now)
        m₂ idv hnid hnid).2.2
      rw [hlen, ← hdecomp]

/-- C5 witness: updating the amount of the §8 sample transaction `t2` to
60000 on both backends. -/
theorem updateTransaction_amount_spec_witness :
    (sampleWebStore.transactions = some sampleJanuary ∧
      (sampleJanuary.map fun t => t.id).Nodup ∧
      (⟨"t2", TxType.expense, 50000, some "cat_1", ⟨2026, 1, 20⟩, none, "c", "u"⟩ :
        Transaction) ∈ sampleJanuary) ∧
    (updateTransactionWeb "t2" (amountOnlyUpdate 60000) "T1" sampleWebStore).1 =
      some ⟨"t2", TxType.expense, 60000, some "cat_1", ⟨2026, 1, 20⟩, none, "c", "T1"⟩ ∧
    (updateTransactionNative "t2" (amountOnlyUpdate 60000) "T1" sampleNativeStore).1 =
      some ⟨"t2", TxType.expense, 60000, some "cat_1", ⟨2026, 1, 20⟩, none, "c", "T1"⟩ := by
  have h := updateTransaction_amount_spec "t2" 60000 "T1" sampleWebStore sampleJanuary
    ⟨"t2", TxType.expense, 50000, some "cat_1", ⟨2026, 1, 20⟩, none, "c", "u"⟩ rfl
    (by decide) (by decide) rfl sampleNativeStore ⟨sampleCats, sampleJanuary, []⟩
    ⟨"t2", TxType.expense, 50000, some "cat_1", ⟨2026, 1, 20⟩, none, "c", "u"⟩ rfl
    (by decide) (by decide) rfl
  exact ⟨⟨rfl, by decide, by decide⟩, h.1.1, h.2.1⟩

/-- C6: on both backends, `deleteTransaction(id)` returns `false` and leaves
the collection unchanged when no stored transaction has the id, and returns
`true` removing exactly one transaction (size decreases by one, given the
duplicate-free-ids invariant) when one does; `updateTransaction` on an
unknown id returns null and writes nothing. -/
theorem deleteTransaction_spec (idv : String) (u : TransactionUpdates) (now : String)
    (sw : WebStore) (txsw : List Transaction) (hw : sw.transactions = some txsw)
    (sn : NativeStore) (dbn : DbState) (hn : sn.db = some dbn) :
    ((∀ t ∈ txsw, t.id ≠ idv) →
      deleteTransactionWeb idv sw = (false, sw) ∧
      updateTransactionWeb idv u now sw = (none, sw)) ∧
    ((txsw.map fun t => t.id).Nodup → (∃ t ∈ txsw, t.id = idv) →
      (deleteTransactionWeb idv sw).1 = true ∧
      ∃ l, (deleteTransactionWeb idv sw).2.transactions = some l ∧
        l.length + 1 = txsw.length) ∧
    ((∀ t ∈ dbn.transactions, t.id ≠ idv) →
      (deleteTransactionNative idv sn).1 = false ∧
      (deleteTransactionNative idv sn).2.db = some dbn ∧
      updateTransactionNative idv u now sn = (none, sn)) ∧
    ((dbn.transactions.map fun t => t.id).Nodup →
      (∃ t ∈ dbn.transactions, t.id = idv) →
      (deleteTransactionNative idv sn).1 = true ∧
      ∃ db', (deleteTransactionNative idv sn).2.db = some db' ∧
        db'.transactions.length + 1 = dbn.transactions.length) := by
  have hgw : getTransactionsWeb sw = sortTransactionsByDateDesc txsw := by
    simp [getTransactionsWeb, hw]
  have hperm : (sortTransactionsByDateDesc txsw).Perm txsw :=
    sortTransactionsByDateDesc_perm txsw
  refine ⟨?_, ?_, ?_, ?_⟩
  · intro habs
    have hfil : (sortTransactionsByDateDesc txsw).filter (fun t => !(t.id == idv)) =
        sortTransactionsByDateDesc txsw :=
      List.filter_eq_self.mpr fun y hy => by
        simp [habs y (hperm.mem_iff.mp hy)]
    constructor
    · simp [deleteTransactionWeb, hgw, hfil]
    · have hupd : updateFirst (fun t => t.id == idv) (fun t => applyUpdates t u now)
          (getTransactionsWeb sw) = (none, getTransactionsWeb sw) := by
        rw [hgw]
        exact updateFirst_not_found _ _ _ fun y hy => by
          simp [habs y (hperm.mem_iff.mp hy)]
      simp only [updateTransactionWeb, hupd]
  · intro hnd hex
    have hndL : ((sortTransactionsByDateDesc txsw).map fun t => t.id).Nodup :=
      (hperm.map fun t => t.id).nodup_iff.mpr hnd
    have hexL : ∃ t ∈ sortTransactionsByDateDesc txsw, t.id = idv := by
      obtain ⟨t, ht, hid⟩ := hex
      exact ⟨t, hperm.mem_iff.mpr ht, hid⟩
    have hlen := filter_delete_length (sortTransactionsByDateDesc txsw) idv hndL hexL
    have hcond : ¬(((sortTransactionsByDateDesc txsw).filter
        (fun t => !(t.id == idv))).length = (sortTransactionsByDateDesc txsw).length) := by
      omega
    simp only [deleteTransactionWeb, hgw]
    rw [if_neg hcond]
    refine ⟨rfl, ⟨_, rfl, ?_⟩⟩
    have hlen2 := hperm.length_eq
    omega
  · intro habs
    have hfil : dbn.transactions.filter (fun t => !(t.id == idv)) = dbn.transactions :=
      List.filter_eq_self.mpr fun y hy => by simp [habs y hy]
    have hfind : dbn.transactions.find? (fun t => t.id == idv) = none :=
      List.find?_eq_none.mpr fun y hy => by simp [habs y hy]
    refine ⟨?_, ?_, ?_⟩
    · simp [deleteTransactionNative, hn, hfil]
    · simp [deleteTransactionNative, hn, hfil]
    · simp only [updateTransactionNative, hn, hfind]
  · intro hnd hex
    have hlen := filter_delete_length dbn.transactions idv hnd hex
    have hpos : dbn.transactions.length -
        (dbn.transactions.filter fun t => !(t.id == idv)).length > 0 := by
      omega
    obtain ⟨flt, hflt⟩ : ∃ v, dbn.transactions.filter (fun t => !(t.id == idv)) = v :=
      ⟨_, rfl⟩
    refine ⟨?_, ⟨{ dbn with transactions := flt }, ?_, ?_⟩⟩
    · simp [deleteTransactionNative, hn, hpos]
    · simp only [deleteTransactionNative, hn, hflt]
    · show flt.length + 1 = dbn.transactions.length
      rw [← hflt]
      exact hlen

/-- C6 witness: deleting an unknown id (`"zzz"`) and an existing id
(`"t2"`) from the §8 sample store. -/
theorem deleteTransaction_spec_witness :
    ((∀ t ∈ sampleJanuary, t.id ≠ "zzz") ∧
      deleteTransactionWeb "zzz" sampleWebStore = (false, sampleWebStore)) ∧
    ((sampleJanuary.map fun t => t.id).Nodup ∧ (∃ t ∈ sampleJanuary, t.id = "t2") ∧
      (deleteTransactionWeb "t2" sampleWebStore).1 = true) := by
  have h1 := deleteTransaction_spec "zzz" (amountOnlyUpdate 0) "T1" sampleWebStore
    sampleJanuary rfl sampleNativeStore ⟨sampleCats, sampleJanuary, []⟩ rfl
  have h2 := deleteTransaction_spec "t2" (amountOnlyUpdate 0) "T1" sampleWebStore
    sampleJanuary rfl sampleNativeStore ⟨sampleCats, sampleJanuary, []⟩ rfl
  exact ⟨⟨by decide, (h1.1 (by decide)).1⟩,
    ⟨by decide, by decide, (h2.2.1 (by decide) (by decide)).1⟩⟩

/-- C7: on both import implementations, a parsed document whose `version`
exceeds the supported `EXPORT_VERSION = 1` yields a structured failure with
an error message and leaves the stored state untouched; documents with
`version ≤ 1` pass the gate (the Web import then succeeds, and the
native import succeeds whenever the database is available). -/
theorem importData_version_gate (doc : ExportDoc) (now : String)
    (sw : WebStore) (sn : NativeStore) :
    EXPORT_VERSION = 1 ∧
    (doc.version > EXPORT_VERSION →
      (importDataWeb doc sw).1.success = false ∧
      ((importDataWeb doc sw).1.error.isSome = true) ∧
      (importDataWeb doc sw).2 = sw ∧
      (importDataNative doc now sn).1.success = false ∧
      ((importDataNative doc now sn).1.error.isSome = true) ∧
      (importDataNative doc now sn).2 = sn) ∧
    (doc.version ≤ EXPORT_VERSION →
      (importDataWeb doc sw).1.success = true ∧
      ∀ db, sn.db = some db → (importDataNative doc now sn).1.success = true) := by
  refine ⟨rfl, ?_, ?_⟩
  · intro h
    simp [importDataWeb, importDataNative, if_pos h]
  · intro h
    have hng : ¬(doc.version > EXPORT_VERSION) := not_lt.mpr h
    constructor
    · simp only [importDataWeb, if_neg hng]
    · intro db hdb
      simp only [importDataNative, if_neg hng, hdb]

/-- C7 witness: the gate at concrete documents of versions 2 and 1. -/
theorem importData_version_gate_witness :
    (sampleNewerDoc.version > EXPORT_VERSION ∧
      (importDataWeb sampleNewerDoc sampleWebStore).1.success = false ∧
      (importDataWeb sampleNewerDoc sampleWebStore).2 = sampleWebStore) ∧
    (sampleCurrentDoc.version ≤ EXPORT_VERSION ∧
      (importDataWeb sampleCurrentDoc sampleWebStore).1.success = true ∧
      (sampleNativeStore.db = some ⟨sampleCats, sampleJanuary, []⟩ ∧
        (importDataNative sampleCurrentDoc "T1" sampleNativeStore).1.success = true)) := by
  have h1 := importData_version_gate sampleNewerDoc "T1" sampleWebStore sampleNativeStore
  have h2 := importData_version_gate sampleCurrentDoc "T1" sampleWebStore sampleNativeStore
  refine ⟨⟨by decide, (h1.2.1 (by decide)).1, (h1.2.1 (by decide)).2.2.1⟩,
    ⟨by decide, (h2.2.2 (by decide)).1, rfl, (h2.2.2 (by decide)).2 _ rfl⟩⟩
